import Mathlib

/-!
Verification development for the `apng` animated-PNG encoder (Go).

The source (`writer.go` plus save/bytes entry points) is shallowly embedded:
bytes are `Nat` (values kept below 256 by the byte writers, exactly as Go's
`uint8` truncation does), byte slices are `List Nat`, errors are an explicit
inductive type, and the `io.Writer` is a byte accumulator plus an explicit
schedule of write failures.  All definitions are executable.
-/

set_option maxRecDepth 100000

namespace Apng

/-! ## Byte-level primitives (`writeUint16`, `writeUint32`, `binary.BigEndian.Uint32`) -/

/-- Big-endian 4-byte encoding of a `uint32` value, as produced by
`writeUint32` (each byte is the Go `uint8(u >> k)` truncation). -/
def u32be (n : Nat) : List Nat :=
  [(n >>> 24) % 256, (n >>> 16) % 256, (n >>> 8) % 256, n % 256]

/-- Big-endian 2-byte encoding of a `uint16` value, as produced by `writeUint16`. -/
def u16be (n : Nat) : List Nat :=
  [(n >>> 8) % 256, n % 256]

/-- Model of `binary.BigEndian.Uint32` over the first four bytes of a slice.  Each
byte is masked to 8 bits, mirroring the fact that Go reads `uint8` memory. -/
def parseU32 (bs : List Nat) : Nat :=
  (bs.getD 0 0 % 256) * 2 ^ 24 + (bs.getD 1 0 % 256) * 2 ^ 16 +
    (bs.getD 2 0 % 256) * 2 ^ 8 + bs.getD 3 0 % 256

/-- Go's `uint32(x)` conversion of a (possibly negative) `int`:
two's-complement reduction modulo 2^32. -/
def goUint32 (x : Int) : Nat := (x % 4294967296).toNat

/-! ## CRC-32 (IEEE), as in `hash/crc32` with the IEEE polynomial -/

/-- One bit step of the reflected CRC-32 computation
(polynomial 0xEDB88320). -/
def crcBit (c : Nat) : Nat :=
  if c % 2 = 1 then Nat.xor (c >>> 1) 0xEDB88320 else c >>> 1

/-- Fold one byte into a running CRC-32 state. -/
def crcByte (c b : Nat) : Nat := crcBit^[8] (Nat.xor c (b % 256))

/-- CRC-32 (IEEE) of a byte sequence: initial value 0xFFFFFFFF, final
complement, as computed by `crc32.NewIEEE()` / `Sum32()`. -/
def crc32 (bs : List Nat) : Nat :=
  Nat.xor (bs.foldl crcByte 0xFFFFFFFF) 0xFFFFFFFF

example : crc32 [49, 50, 51, 52, 53, 54, 55, 56, 57] = 0xCBF43926 := by decide

example : crc32 [73, 69, 78, 68] = 0xAE426082 := by decide

/-! ## Chunk tags and the PNG signature -/

/-- ASCII bytes of the chunk tag IHDR. -/
def tagIHDR : List Nat := [73, 72, 68, 82]

/-- ASCII bytes of the chunk tag PLTE. -/
def tagPLTE : List Nat := [80, 76, 84, 69]

/-- ASCII bytes of the chunk tag tRNS. -/
def tagTRNS : List Nat := [116, 82, 78, 83]

/-- ASCII bytes of the chunk tag IDAT. -/
def tagIDAT : List Nat := [73, 68, 65, 84]

/-- ASCII bytes of the chunk tag IEND. -/
def tagIEND : List Nat := [73, 69, 78, 68]

/-- ASCII bytes of the chunk tag acTL. -/
def tagacTL : List Nat := [97, 99, 84, 76]

/-- ASCII bytes of the chunk tag fcTL. -/
def tagfcTL : List Nat := [102, 99, 84, 76]

/-- ASCII bytes of the chunk tag fdAT. -/
def tagfdAT : List Nat := [102, 100, 65, 84]

/-- The 8-byte PNG signature `\x89PNG\r\n\x1a\n`. -/
def pngSig : List Nat := [137, 80, 78, 71, 13, 10, 26, 10]

/-! ## Errors -/

/-- The distinct error values the embedded encoder can produce.  Go uses
distinct `errors.New` values; we use distinct constructors. -/
inductive GoErr where
  /-- Error `apng: need at least one image`. -/
  | needOneImage
  /-- Error `apng: mismatched image and delay lengths`. -/
  | mismatchedDelays
  /-- Error `apng: mismatch image and disposal lengths`. -/
  | mismatchedDisposals
  /-- Error `apng: must fullfill frame region constraints`. -/
  | regionConstraints
  /-- Error `io.ErrUnexpectedEOF` (truncated chunk stream; `io.EOF` is mapped to it). -/
  | unexpectedEOF
  /-- runtime panic: chunk payload larger than the 768-byte scratch buffer -/
  | sliceOOB
  /-- Error `apng: chunk is too large`. -/
  | chunkTooLarge
  /-- an error returned by the caller-supplied `io.Writer` -/
  | writerErr (n : Nat)
deriving DecidableEq, Repr

/-- The validation errors of the spec taxonomy caused by count invariants. -/
def GoErr.isCountValidation : GoErr → Bool
  | .needOneImage => true
  | .mismatchedDelays => true
  | .mismatchedDisposals => true
  | _ => false

/-! ## Chunks -/

/-- A container chunk: 4-byte type tag plus payload. -/
structure Chunk where
  tag : List Nat
  payload : List Nat
deriving DecidableEq, Repr, Inhabited

/-- The byte serialization `writeChunk` produces for one chunk:
big-endian payload length, tag, payload, big-endian CRC-32 over
tag ++ payload. -/
def serializeChunk (c : Chunk) : List Nat :=
  u32be c.payload.length ++ c.tag ++ c.payload ++ u32be (crc32 (c.tag ++ c.payload))

/-! ## Data model (`image.Rectangle`, `image.Image`, `APNG`) -/

/-- A Go `image.Rectangle`: two corner points with `int` coordinates. -/
structure Rect where
  minX : Int := 0
  minY : Int := 0
  maxX : Int := 0
  maxY : Int := 0
deriving DecidableEq, Repr, Inhabited

/-- An input frame: its bounds, its color model (an opaque identifier:
Go compares `ColorModel()` results for interface equality), whether it is an
`*image.Paletted`, and the byte stream the external single-image encoder
(`png.Encode`) produces for it.  The stream stands for the black-box
collaborator's output; everything downstream of `png.Encode` is modelled
faithfully. -/
structure GoImage where
  bounds : Rect := {}
  colorModel : Nat := 0
  isPaletted : Bool := false
  stream : List Nat := []
deriving DecidableEq, Repr, Inhabited

/-- The `APNG` input struct: frames, per-frame delays (centiseconds,
`uint16`), optional per-frame disposal bytes (`Disposals []byte`, `none`
standing for a nil slice), and the loop count (`uint32`). -/
structure APNGData where
  images : List GoImage := []
  delays : List Nat := []
  disposals : Option (List Nat) := none
  loopCount : Nat := 0
deriving DecidableEq, Repr

/-! ## Single-image chunk parsing (`chunkFetcher`) -/

/-- The `pngChunk` result of `fetchPNGChunk`: stored IHDR payload, the
ordered IDAT payloads, and (unused downstream) bare PLTE/tRNS payloads. -/
structure PngChunk where
  ihdr : Option (List Nat) := none
  idats : List (List Nat) := []
  plte : Option (List Nat) := none
  trns : Option (List Nat) := none
deriving DecidableEq, Repr, Inhabited

/-- The loop of `fetchPNGChunk` / `parsePNGChunk`: read an 8-byte chunk
header, dispatch on the tag, drop the 4 CRC bytes without verification,
repeat until IEND.  `io.EOF` from a truncated read is already mapped to
`io.ErrUnexpectedEOF` as the caller does.  Reading an IHDR payload longer
than the 768-byte scratch buffer would panic in Go (`sliceOOB`). -/
def fetchLoop : Nat → List Nat → PngChunk → Except GoErr PngChunk
  | 0, _, _ => .error .unexpectedEOF
  | fuel + 1, bs, acc =>
    if bs.length < 8 then .error .unexpectedEOF
    else
      let length := parseU32 (bs.take 4)
      let tag := (bs.drop 4).take 4
      let rest := bs.drop 8
      if tag = tagIHDR then
        if 768 < length then .error .sliceOOB
        else if rest.length < length then .error .unexpectedEOF
        else fetchLoop fuel ((rest.drop length).drop 4) { acc with ihdr := some (rest.take length) }
      else if tag = tagPLTE then
        if rest.length < length then .error .unexpectedEOF
        else fetchLoop fuel ((rest.drop length).drop 4) { acc with plte := some (rest.take length) }
      else if tag = tagTRNS then
        if rest.length < length then .error .unexpectedEOF
        else fetchLoop fuel ((rest.drop length).drop 4) { acc with trns := some (rest.take length) }
      else if tag = tagIDAT then
        if rest.length < length then .error .unexpectedEOF
        else fetchLoop fuel ((rest.drop length).drop 4)
          { acc with idats := acc.idats ++ [rest.take length] }
      else if tag = tagIEND then .ok acc
      else fetchLoop fuel ((rest.drop length).drop 4) acc

/-- Model of `fetchPNGChunk`: drop the 8-byte signature (`bb.Next`, unchecked), then
run the chunk loop with an empty accumulator.  Each iteration consumes at
least 8 bytes or terminates, so the fuel `bs.length + 1` never runs out:
the fuel-0 branch (also `unexpectedEOF`, the empty-stream outcome) is
unreachable. -/
def fetchPNGChunk (bs : List Nat) : Except GoErr PngChunk :=
  fetchLoop (bs.length + 1) (bs.drop 8) {}

/-- Result of `fetchPaletteChunk`: the PLTE and tRNS chunks of the first
frame's stream, each stored in raw form `length(4) ++ tag(4) ++ data` as
`parsePLTE` / `parsetRNS` build them. -/
structure PaletteAcc where
  plte : Option (List Nat) := none
  trns : Option (List Nat) := none
deriving DecidableEq, Repr, Inhabited

/-- The loop of `fetchPaletteChunk` / `parsePNGChunkWithPalette`: IHDR is
read but not stored, IDAT payloads are skipped with the tolerant
`bb.Next`, PLTE/tRNS are stored in raw form, unknown tags are skipped. -/
def paletteLoop : Nat → List Nat → PaletteAcc → Except GoErr PaletteAcc
  | 0, _, _ => .error .unexpectedEOF
  | fuel + 1, bs, acc =>
    if bs.length < 8 then .error .unexpectedEOF
    else
      let length := parseU32 (bs.take 4)
      let tag := (bs.drop 4).take 4
      let rest := bs.drop 8
      if tag = tagIHDR then
        if 768 < length then .error .sliceOOB
        else if rest.length < length then .error .unexpectedEOF
        else paletteLoop fuel ((rest.drop length).drop 4) acc
      else if tag = tagPLTE then
        if rest.length < length then .error .unexpectedEOF
        else paletteLoop fuel ((rest.drop length).drop 4)
          { acc with plte := some (u32be length ++ tagPLTE ++ rest.take length) }
      else if tag = tagTRNS then
        if rest.length < length then .error .unexpectedEOF
        else paletteLoop fuel ((rest.drop length).drop 4)
          { acc with trns := some (u32be length ++ tagTRNS ++ rest.take length) }
      else if tag = tagIDAT then
        paletteLoop fuel ((rest.drop length).drop 4) acc
      else if tag = tagIEND then .ok acc
      else paletteLoop fuel ((rest.drop length).drop 4) acc

/-- Model of `fetchPaletteChunk`: drop the 8-byte signature, then run the
palette-extracting loop (fuel as in `fetchPNGChunk`). -/
def fetchPaletteChunk (bs : List Nat) : Except GoErr PaletteAcc :=
  paletteLoop (bs.length + 1) (bs.drop 8) {}

/-- Run `fetchPNGChunk` on every frame's encoded stream.  Go does this in
per-frame goroutines with a first-error-wins cell; completion order is
unconstrained, so the linearization by frame index is one admissible
schedule, and the success case (the only one whose payload is used) is
schedule-independent. -/
def parseFrames : List GoImage → Except GoErr (List PngChunk)
  | [] => .ok []
  | im :: rest =>
    match fetchPNGChunk im.stream with
    | .error er => .error er
    | .ok pc =>
      match parseFrames rest with
      | .error er => .error er
      | .ok pcs => .ok (pc :: pcs)

/-! ## The encoder state and `writeChunk` -/

/-- The `encoder` struct together with its `io.Writer`: `out` is the byte
stream written so far, `sched` is the schedule of outcomes of the underlying
`Write` calls (`none` = success; an empty schedule means every further write
succeeds, like a `bytes.Buffer`), `err` is the sticky first error, `seqNum`
the animation sequence counter (`uint32`). -/
structure Enc where
  out : List Nat := []
  sched : List (Option Nat) := []
  err : Option GoErr := none
  seqNum : Nat := 0
deriving DecidableEq, Repr

/-- One underlying `Write` call: consume the next scheduled outcome; on
success append the bytes, on failure record the writer's error (the writer
returns its own error values, so they are `writerErr` by construction). -/
def encWrite (e : Enc) (bs : List Nat) : Enc :=
  match e.sched with
  | [] => { e with out := e.out ++ bs }
  | none :: rest => { e with out := e.out ++ bs, sched := rest }
  | some n :: rest => { e with sched := rest, err := some (.writerErr n) }

/-- Model of `(*encoder).writeChunk`: no-op when an error is already stored; reject
payloads whose length does not fit the 32-bit length field; otherwise write
header (length + tag), payload, and CRC-32 footer, stopping at the first
write failure. -/
def writeChunk (e : Enc) (b : List Nat) (name : List Nat) : Enc :=
  if e.err.isSome then e
  else if 4294967296 ≤ b.length then { e with err := some .chunkTooLarge }
  else
    let e1 := encWrite e (u32be b.length ++ name.take 4)
    if e1.err.isSome then e1
    else
      let e2 := encWrite e1 b
      if e2.err.isSome then e2
      else encWrite e2 (u32be (crc32 (name.take 4 ++ b)))

/-- Model of `(*encoder).writeacTL`: frame count (`uint32(len(Images))`) and loop
count, 8-byte payload. -/
def writeacTL (e : Enc) (numFrames loopCount : Nat) : Enc :=
  writeChunk e (u32be (numFrames % 4294967296) ++ u32be (loopCount % 4294967296)) tagacTL

/-- The 26-byte fcTL payload as `(*encoder).writefcTL` lays it out for frame
`i` at sequence number `s`. -/
def fcPayload (a : APNGData) (i : Nat) (s : Nat) : List Nat :=
  let b := (a.images.getD i default).bounds
  u32be s ++
    u32be (goUint32 (b.maxX - b.minX)) ++
    u32be (goUint32 (b.maxY - b.minY)) ++
    u32be (goUint32 b.minX) ++
    u32be (goUint32 b.minY) ++
    u16be (a.delays.getD i 0) ++
    u16be 100 ++
    [(match a.disposals with
      | some d => d.getD i 0 % 256
      | none => 0), 0]

/-- Model of `(*encoder).writefcTL`: write the frame-control chunk for frame `i`,
then increment the `uint32` sequence counter. -/
def writefcTL (e : Enc) (a : APNGData) (i : Nat) : Enc :=
  let e1 := writeChunk e (fcPayload a i e.seqNum) tagfcTL
  { e1 with seqNum := (e1.seqNum + 1) % 4294967296 }

/-- Model of `(*encoder).writeIDATs`: each stored data payload as a plain IDAT chunk. -/
def writeIDATs (e : Enc) (ids : List (List Nat)) : Enc :=
  ids.foldl (fun e id => writeChunk e id tagIDAT) e

/-- Model of `(*encoder).writefdATs`: each stored data payload as an fdAT chunk whose
payload is the big-endian sequence number followed by the data, the counter
incremented per chunk. -/
def writefdATs (e : Enc) (ids : List (List Nat)) : Enc :=
  ids.foldl
    (fun e id =>
      let e1 := writeChunk e (u32be e.seqNum ++ id) tagfdAT
      { e1 with seqNum := (e1.seqNum + 1) % 4294967296 })
    e

/-! ## Validation helpers -/

/-- Model of `isSameColorModel` (defined in the repository; the current `EncodeAll`
does not call it): all frames must share the reference frame's color model. -/
def isSameColorModel (imgs : List GoImage) : Bool :=
  match imgs with
  | [] => false
  | r :: rest => rest.all (fun im => im.colorModel = r.colorModel)

/-- Model of `fullfillFrameRegionConstraints`: the first frame's origin must be
non-negative; every later frame needs a non-negative origin and maximum
extents bounded by the first frame's. -/
def fullfillFrameRegionConstraints (imgs : List GoImage) : Bool :=
  match imgs with
  | [] => false
  | ref :: rest =>
    (decide (0 ≤ ref.bounds.minX) && decide (0 ≤ ref.bounds.minY)) &&
    rest.all fun im =>
      decide (0 ≤ im.bounds.minX) && decide (0 ≤ im.bounds.minY) &&
      decide (im.bounds.maxX ≤ ref.bounds.maxX) && decide (im.bounds.maxY ≤ ref.bounds.maxY)

/-! ## `EncodeAll` -/

/-- The disposal-length check of `EncodeAll`:
`a.Disposals != nil && len(a.Images) != len(a.Disposals)`. -/
def disposalsMismatch (a : APNGData) : Bool :=
  match a.disposals with
  | some d => a.images.length ≠ d.length
  | none => false

/-- Model of `EncodeAll`, given the schedule of underlying write outcomes.  Returns
the bytes written to the destination together with the returned error
(`none` = success).  Validation happens before the signature is written;
the palette pre-pass and the per-frame encode+parse phase follow; assembly
writes IHDR, optional global PLTE/tRNS, acTL, then frame 0's fcTL and IDAT
chunks, then every later frame's fcTL and fdAT chunks, then IEND. -/
def encodeAll (sched : List (Option Nat)) (a : APNGData) : List Nat × Option GoErr :=
  if a.images.length = 0 then ([], some .needOneImage)
  else if a.images.length ≠ a.delays.length then ([], some .mismatchedDelays)
  else if disposalsMismatch a then ([], some .mismatchedDisposals)
  else if ¬ fullfillFrameRegionConstraints a.images then ([], some .regionConstraints)
  else
    let e1 := encWrite { out := [], sched := sched, err := none, seqNum := 0 } pngSig
    let img0 := a.images.getD 0 default
    match (if img0.isPaletted then (fetchPaletteChunk img0.stream).map some else .ok none) with
    | .error er => (e1.out, some er)
    | .ok palOpt =>
      match parseFrames a.images with
      | .error er =>
        (e1.out, if e1.err.isSome then e1.err else some er)
      | .ok pcs =>
        if e1.err.isSome then (e1.out, e1.err)
        else
          let pc0 := pcs.getD 0 default
          let e2 := writeChunk e1 (pc0.ihdr.getD []) tagIHDR
          let e3 :=
            match palOpt with
            | some pal =>
              match pal.plte with
              | some plteRaw =>
                let e' := writeChunk e2 ((plteRaw.drop 8).take (parseU32 (plteRaw.take 4))) tagPLTE
                match pal.trns with
                | some trnsRaw =>
                  writeChunk e' ((trnsRaw.drop 8).take (parseU32 (trnsRaw.take 4))) tagTRNS
                | none => e'
              | none => e2
            | none => e2
          let e4 := writeacTL e3 a.images.length a.loopCount
          let e5 := writefcTL e4 a 0
          let e6 := writeIDATs e5 pc0.idats
          let e7 :=
            (List.range (a.images.length - 1)).foldl
              (fun e k => writefdATs (writefcTL e a (k + 1)) ((pcs.getD (k + 1) default).idats))
              e6
          let e8 := writeChunk e7 [] tagIEND
          (e8.out, e8.err)

/-! ## Re-parsing a container at chunk granularity

A generic chunk-stream reader: length, tag, payload, skip the CRC, strictly
to the end of the stream.  Used to state the round-trip properties. -/

/-- Split a byte stream into its chunk sequence: each chunk is a 4-byte
big-endian payload length, a 4-byte tag, the payload, and 4 CRC bytes
(skipped).  `none` on truncation or trailing garbage. -/
def parseChunksF : Nat → List Nat → Option (List Chunk)
  | 0, _ => none
  | fuel + 1, bs =>
    if bs.isEmpty then some []
    else if bs.length < 8 then none
    else
      let len := parseU32 (bs.take 4)
      if bs.length < 12 + len then none
      else
        match parseChunksF fuel (bs.drop (12 + len)) with
        | some cs => some (⟨(bs.drop 4).take 4, (bs.drop 8).take len⟩ :: cs)
        | none => none

/-- Each step consumes at least 12 bytes, so `bs.length + 1` fuel always
suffices (the fuel-0 branch is unreachable). -/
def parseChunks (bs : List Nat) : Option (List Chunk) :=
  parseChunksF (bs.length + 1) bs

/-- The result does not depend on the fuel once the fuel exceeds the
stream length. -/
theorem parseChunksF_irrel (f1 : Nat) :
    ∀ f2 : Nat, ∀ bs : List Nat, bs.length < f1 → bs.length < f2 →
      parseChunksF f1 bs = parseChunksF f2 bs := by
  induction f1 with
  | zero => intro f2 bs h1 _; omega
  | succ n ih =>
    intro f2 bs h1 h2
    rcases f2 with _ | m
    · omega
    by_cases he : bs.isEmpty
    · simp [parseChunksF, he]
    by_cases h8 : bs.length < 8
    · simp [parseChunksF, he, h8]
    by_cases h12 : bs.length < 12 + parseU32 (bs.take 4)
    · simp [parseChunksF, he, h8, h12]
    · have hlt : (bs.drop (12 + parseU32 (bs.take 4))).length < n := by
        simp only [List.length_drop]
        omega
      have hlt2 : (bs.drop (12 + parseU32 (bs.take 4))).length < m := by
        simp only [List.length_drop]
        omega
      have hrec := ih m (bs.drop (12 + parseU32 (bs.take 4))) hlt hlt2
      simp [parseChunksF, he, h8, h12, hrec]

/-- Re-parse a produced container: check the 8-byte signature, then read the
chunk sequence. -/
def parseContainer (bs : List Nat) : Option (List Chunk) :=
  if bs.take 8 = pngSig then parseChunks (bs.drop 8) else none

/-! ## The expected chunk sequence of a successful encode -/

/-- Number of data chunks parsed for frame `i`. -/
def idatCnt (pcs : List PngChunk) (i : Nat) : Nat :=
  (pcs.getD i default).idats.length

/-- The (unwrapped) sequence number of frame `i`'s frame-control chunk:
frame 0's control chunk gets 0, each later control chunk follows all
previous control and frame-data chunks (frame 0's data chunks are IDATs and
consume no sequence numbers). -/
def fcSeq (pcs : List PngChunk) (i : Nat) : Nat :=
  i + ((List.range i).map fun j => if j = 0 then 0 else idatCnt pcs j).sum

/-- Total number of sequence numbers consumed by a container of `n` frames. -/
def seqTotal (pcs : List PngChunk) (n : Nat) : Nat := fcSeq pcs n

/-- The chunk group of frame `i ≥ 1`: its frame-control chunk followed by
one fdAT chunk per parsed data payload, sequence numbers reduced mod 2^32
exactly as the `uint32` counter wraps. -/
def frameGroup (a : APNGData) (pcs : List PngChunk) (i : Nat) : List Chunk :=
  ⟨tagfcTL, fcPayload a i (fcSeq pcs i % 4294967296)⟩ ::
    (List.range (idatCnt pcs i)).map fun j =>
      ⟨tagfdAT, u32be ((fcSeq pcs i + 1 + j) % 4294967296) ++
        (pcs.getD i default).idats.getD j []⟩

/-- Chunk groups of all frames after the first. -/
def laterFrameChunks (a : APNGData) (pcs : List PngChunk) : List Chunk :=
  (List.range (a.images.length - 1)).flatMap fun k => frameGroup a pcs (k + 1)

/-- The global PLTE/tRNS chunks emitted for a paletted first frame: the
payloads extracted from the raw stored forms; tRNS only ever together with
(and right after) PLTE. -/
def palChunks (palOpt : Option PaletteAcc) : List Chunk :=
  match palOpt with
  | none => []
  | some pal =>
    match pal.plte with
    | none => []
    | some plteRaw =>
      ⟨tagPLTE, (plteRaw.drop 8).take (parseU32 (plteRaw.take 4))⟩ ::
        (match pal.trns with
         | none => []
         | some trnsRaw => [⟨tagTRNS, (trnsRaw.drop 8).take (parseU32 (trnsRaw.take 4))⟩])

/-- The full chunk sequence a successful `encodeAll` emits after the
signature. -/
def fullChunkList (a : APNGData) (pcs : List PngChunk) (palOpt : Option PaletteAcc) :
    List Chunk :=
  ⟨tagIHDR, (pcs.getD 0 default).ihdr.getD []⟩ ::
    palChunks palOpt ++
    [⟨tagacTL, u32be (a.images.length % 4294967296) ++ u32be (a.loopCount % 4294967296)⟩,
     ⟨tagfcTL, fcPayload a 0 0⟩] ++
    (pcs.getD 0 default).idats.map (fun id => ⟨tagIDAT, id⟩) ++
    laterFrameChunks a pcs ++
    [⟨tagIEND, []⟩]

/-! ## Byte-level lemmas -/

theorem u32be_length (n : Nat) : (u32be n).length = 4 := rfl

theorem u16be_length (n : Nat) : (u16be n).length = 2 := rfl

theorem parseU32_u32be (n : Nat) (h : n < 4294967296) : parseU32 (u32be n) = n := by
  have e : parseU32 (u32be n) =
      (n >>> 24 % 256 % 256) * 2 ^ 24 + (n >>> 16 % 256 % 256) * 2 ^ 16 +
        (n >>> 8 % 256 % 256) * 2 ^ 8 + n % 256 % 256 := rfl
  rw [e, Nat.shiftRight_eq_div_pow, Nat.shiftRight_eq_div_pow, Nat.shiftRight_eq_div_pow]
  norm_num
  omega

theorem parseU32_lt (bs : List Nat) : parseU32 bs < 4294967296 := by
  simp only [parseU32]
  have h0 : bs.getD 0 0 % 256 < 256 := Nat.mod_lt _ (by norm_num)
  have h1 : bs.getD 1 0 % 256 < 256 := Nat.mod_lt _ (by norm_num)
  have h2 : bs.getD 2 0 % 256 < 256 := Nat.mod_lt _ (by norm_num)
  have h3 : bs.getD 3 0 % 256 < 256 := Nat.mod_lt _ (by norm_num)
  norm_num
  omega

theorem take_append_left (l r : List Nat) (n : Nat) (h : l.length = n) :
    (l ++ r).take n = l := by
  subst h; simp

theorem drop_append_left (l r : List Nat) (n : Nat) (h : l.length = n) :
    (l ++ r).drop n = r := by
  subst h; simp

/-! ## `writeChunk` on a healthy encoder -/

theorem writeChunk_clean (out : List Nat) (s : Nat) (b name : List Nat)
    (hb : b.length < 4294967296) (hn : name.length = 4) :
    writeChunk ⟨out, [], none, s⟩ b name =
      ⟨out ++ serializeChunk ⟨name, b⟩, [], none, s⟩ := by
  have hnt : name.take 4 = name := by
    rw [← hn]; exact List.take_length name
  simp [writeChunk, encWrite, Nat.not_le.mpr hb, hnt, serializeChunk]

theorem writeChunk_err (e : Enc) (b name : List Nat) (er : GoErr) (h : e.err = some er) :
    writeChunk e b name = e := by
  simp [writeChunk, h]

/-- On an empty failure schedule, `writeChunk` either leaves the stored
error unchanged or records `chunkTooLarge`. -/
theorem writeChunk_err_cases (e : Enc) (b name : List Nat) (h : e.sched = []) :
    ((writeChunk e b name).err = e.err ∨ (writeChunk e b name).err = some .chunkTooLarge) ∧
      (writeChunk e b name).sched = [] := by
  rcases e with ⟨out, sched, err, s⟩
  simp only at h
  subst h
  cases err with
  | none => by_cases hb : 4294967296 ≤ b.length <;> simp [writeChunk, encWrite, hb]
  | some er => simp [writeChunk]

theorem fcPayload_length (a : APNGData) (i s : Nat) : (fcPayload a i s).length = 26 := by
  simp [fcPayload, u32be, u16be]

/-! ## Round trip: serialized chunks re-parse to themselves -/

/-- A chunk the writer can emit: 4-byte tag, payload length in `uint32` range. -/
def WfChunk (c : Chunk) : Prop :=
  c.tag.length = 4 ∧ c.payload.length < 4294967296

theorem serializeChunk_length (c : Chunk) (h4 : c.tag.length = 4) :
    (serializeChunk c).length = 12 + c.payload.length := by
  simp [serializeChunk, h4, u32be]
  omega

theorem parseChunks_nil : parseChunks [] = some [] := rfl

theorem parseChunksF_step (fuel : Nat) (bs : List Nat) :
    parseChunksF (fuel + 1) bs =
      if bs.isEmpty then some []
      else if bs.length < 8 then none
      else if bs.length < 12 + parseU32 (bs.take 4) then none
      else
        match parseChunksF fuel (bs.drop (12 + parseU32 (bs.take 4))) with
        | some cs => some (⟨(bs.drop 4).take 4, (bs.drop 8).take (parseU32 (bs.take 4))⟩ :: cs)
        | none => none := rfl

theorem parseChunks_cons (c : Chunk) (rest : List Nat) (h4 : c.tag.length = 4)
    (hlen : c.payload.length < 4294967296) :
    parseChunks (serializeChunk c ++ rest) = (parseChunks rest).map (c :: ·) := by
  have hL : (serializeChunk c).length = 12 + c.payload.length := serializeChunk_length c h4
  have hsplit : serializeChunk c ++ rest =
      u32be c.payload.length ++ (c.tag ++ (c.payload ++
        (u32be (crc32 (c.tag ++ c.payload)) ++ rest))) := by
    simp [serializeChunk]
  have htake4 : (serializeChunk c ++ rest).take 4 = u32be c.payload.length := by
    rw [hsplit]; exact take_append_left _ _ _ (u32be_length _)
  have hdrop4 : ((serializeChunk c ++ rest).drop 4).take 4 = c.tag := by
    rw [hsplit, drop_append_left _ _ _ (u32be_length _)]
    exact take_append_left _ _ _ h4
  have hsplit8 : serializeChunk c ++ rest =
      (u32be c.payload.length ++ c.tag) ++ (c.payload ++
        (u32be (crc32 (c.tag ++ c.payload)) ++ rest)) := by
    simp [serializeChunk]
  have hdrop8 : ((serializeChunk c ++ rest).drop 8).take c.payload.length = c.payload := by
    rw [hsplit8, drop_append_left _ _ 8 (by simp [u32be, h4])]
    exact take_append_left _ _ _ rfl
  have hdropAll : (serializeChunk c ++ rest).drop (12 + c.payload.length) = rest :=
    drop_append_left _ _ _ hL
  have hlen' : (serializeChunk c ++ rest).length = 12 + c.payload.length + rest.length := by
    simp [hL]
  have hne : (serializeChunk c ++ rest).isEmpty = false := by
    rcases hni : serializeChunk c ++ rest with _ | ⟨x, xs⟩
    · have := congrArg List.length hni
      rw [hlen'] at this
      simp at this
    · rfl
  have c1 : ¬ ((serializeChunk c ++ rest).length < 8) := by rw [hlen']; omega
  have c2 : ¬ ((serializeChunk c ++ rest).length <
      12 + parseU32 ((serializeChunk c ++ rest).take 4)) := by
    rw [hlen', htake4, parseU32_u32be _ hlen]; omega
  rw [parseChunks, parseChunksF_step]
  rw [if_neg (by simp [hne]), if_neg c1]
  simp only [htake4, parseU32_u32be _ hlen]
  rw [if_neg (by rw [hlen']; omega), hdropAll, hdrop4, hdrop8]
  have hrw : parseChunksF (serializeChunk c ++ rest).length rest = parseChunks rest := by
    rw [parseChunks]
    exact parseChunksF_irrel _ _ _ (by rw [hlen']; omega) (by omega)
  rw [hrw]
  cases parseChunks rest <;> simp

theorem parseChunks_flatMap (cs : List Chunk) (h : ∀ c ∈ cs, WfChunk c) :
    parseChunks (cs.flatMap serializeChunk) = some cs := by
  induction cs with
  | nil => simpa using parseChunks_nil
  | cons c cs ih =>
    have hc := h c (by simp)
    rw [List.flatMap_cons, parseChunks_cons c _ hc.1 hc.2,
      ih (fun d hd => h d (by simp [hd]))]
    rfl

theorem parseContainer_flatMap (cs : List Chunk) (h : ∀ c ∈ cs, WfChunk c) :
    parseContainer (pngSig ++ cs.flatMap serializeChunk) = some cs := by
  rw [parseContainer,
    if_pos (take_append_left pngSig (cs.flatMap serializeChunk) 8 (by norm_num [pngSig])),
    drop_append_left pngSig (cs.flatMap serializeChunk) 8 (by norm_num [pngSig])]
  exact parseChunks_flatMap cs h

/-! ## Closed forms of the chunk-writing phases on a healthy encoder -/

theorem getD_mem_or {α : Type} (l : List α) (i : Nat) (d : α) :
    l.getD i d ∈ l ∨ l.getD i d = d := by
  by_cases h : i < l.length
  · left
    rw [List.getD_eq_getElem l d h]
    exact l.getElem_mem h
  · right
    exact List.getD_eq_default l d (Nat.le_of_not_lt h)

theorem fcSeq_zero (pcs : List PngChunk) : fcSeq pcs 0 = 0 := by simp [fcSeq]

theorem fcSeq_succ (pcs : List PngChunk) (i : Nat) :
    fcSeq pcs (i + 1) = fcSeq pcs i + 1 + (if i = 0 then 0 else idatCnt pcs i) := by
  simp [fcSeq, List.range_succ]
  omega

theorem fcSeq_one (pcs : List PngChunk) : fcSeq pcs 1 = 1 := by
  rw [fcSeq_succ, fcSeq_zero]
  simp

theorem fcSeq_mono (pcs : List PngChunk) {i j : Nat} (h : i ≤ j) :
    fcSeq pcs i ≤ fcSeq pcs j := by
  induction j with
  | zero => simp_all
  | succ j ih =>
    rcases Nat.lt_or_ge i (j + 1) with hl | hg
    · exact le_trans (ih (Nat.lt_succ_iff.mp hl)) (by rw [fcSeq_succ]; omega)
    · have : i = j + 1 := le_antisymm h hg
      simp [this]

theorem writeacTL_clean (out : List Nat) (s : Nat) (numFrames loopCount : Nat) :
    writeacTL ⟨out, [], none, s⟩ numFrames loopCount =
      ⟨out ++ serializeChunk ⟨tagacTL,
        u32be (numFrames % 4294967296) ++ u32be (loopCount % 4294967296)⟩, [], none, s⟩ := by
  rw [writeacTL, writeChunk_clean _ _ _ tagacTL (by simp [u32be]) rfl]

theorem writefcTL_clean (a : APNGData) (i : Nat) (out : List Nat) (s : Nat) :
    writefcTL ⟨out, [], none, s⟩ a i =
      ⟨out ++ serializeChunk ⟨tagfcTL, fcPayload a i s⟩, [], none, (s + 1) % 4294967296⟩ := by
  rw [writefcTL, writeChunk_clean _ _ _ tagfcTL (by rw [fcPayload_length]; norm_num) rfl]

theorem writeIDATs_clean (ids : List (List Nat)) :
    ∀ out : List Nat, ∀ s : Nat, (∀ id ∈ ids, id.length < 4294967296) →
      writeIDATs ⟨out, [], none, s⟩ ids =
        ⟨out ++ (ids.map fun id => (⟨tagIDAT, id⟩ : Chunk)).flatMap serializeChunk,
          [], none, s⟩ := by
  induction ids with
  | nil => intro out s _; simp [writeIDATs]
  | cons id ids ih =>
    intro out s h
    have hstep : writeIDATs ⟨out, [], none, s⟩ (id :: ids) =
        writeIDATs ⟨out ++ serializeChunk ⟨tagIDAT, id⟩, [], none, s⟩ ids := by
      rw [writeIDATs, List.foldl_cons, writeChunk_clean _ _ id tagIDAT (h id (by simp)) rfl]
      rfl
    rw [hstep, ih _ s (fun d hd => h d (by simp [hd]))]
    simp

theorem writefdATs_clean (ids : List (List Nat)) :
    ∀ out : List Nat, ∀ u : Nat, (∀ id ∈ ids, 4 + id.length < 4294967296) →
      writefdATs ⟨out, [], none, u % 4294967296⟩ ids =
        ⟨out ++ ((List.range ids.length).map fun j =>
            (⟨tagfdAT, u32be ((u + j) % 4294967296) ++ ids.getD j []⟩ : Chunk)).flatMap
              serializeChunk,
          [], none, (u + ids.length) % 4294967296⟩ := by
  induction ids with
  | nil => intro out u _; simp [writefdATs]
  | cons id ids ih =>
    intro out u h
    have hlen : (u32be (u % 4294967296) ++ id).length < 4294967296 := by
      have := h id (by simp)
      simp [u32be]
      omega
    have hstep : writefdATs ⟨out, [], none, u % 4294967296⟩ (id :: ids) =
        writefdATs ⟨out ++ serializeChunk ⟨tagfdAT, u32be (u % 4294967296) ++ id⟩,
          [], none, (u % 4294967296 + 1) % 4294967296⟩ ids := by
      rw [writefdATs, List.foldl_cons, writeChunk_clean _ _ _ tagfdAT hlen rfl]
      rfl
    have hmod : (u % 4294967296 + 1) % 4294967296 = (u + 1) % 4294967296 := by
      conv_rhs => rw [Nat.add_mod]
    rw [hstep, hmod, ih _ (u + 1) (fun d hd => h d (by simp [hd]))]
    have hmap : ((List.range (id :: ids).length).map fun j =>
        (⟨tagfdAT, u32be ((u + j) % 4294967296) ++ (id :: ids).getD j []⟩ : Chunk)) =
        (⟨tagfdAT, u32be (u % 4294967296) ++ id⟩ : Chunk) ::
          ((List.range ids.length).map fun j =>
            (⟨tagfdAT, u32be ((u + 1 + j) % 4294967296) ++ ids.getD j []⟩ : Chunk)) := by
      rw [List.length_cons, List.range_succ_eq_map, List.map_cons, List.map_map]
      congr 1
      apply List.map_congr_left
      intro j hj
      simp only [Function.comp_apply, List.getD_cons_succ, Nat.succ_eq_add_one]
      have harith : u + (j + 1) = u + 1 + j := by omega
      rw [harith]
    rw [hmap]
    have harith2 : u + 1 + ids.length = u + (ids.length + 1) := by omega
    simp [harith2]

theorem idats_size_getD (pcs : List PngChunk)
    (hid : ∀ pc ∈ pcs, ∀ id ∈ pc.idats, 4 + id.length < 4294967296) (i : Nat) :
    ∀ id ∈ (pcs.getD i default).idats, 4 + id.length < 4294967296 := by
  intro id hmem
  rcases getD_mem_or pcs i default with hp | hp
  · exact hid _ hp id hmem
  · rw [hp] at hmem
    simp [default] at hmem

/-- Closed form of the frame loop of `EncodeAll` over frames `1..n` on a
healthy encoder whose sequence counter sits at `fcSeq pcs 1`. -/
theorem frameLoop_clean (a : APNGData) (pcs : List PngChunk)
    (hid : ∀ pc ∈ pcs, ∀ id ∈ pc.idats, 4 + id.length < 4294967296) :
    ∀ n : Nat, ∀ out : List Nat,
      (List.range n).foldl
        (fun e k => writefdATs (writefcTL e a (k + 1)) ((pcs.getD (k + 1) default).idats))
        ⟨out, [], none, fcSeq pcs 1 % 4294967296⟩ =
      ⟨out ++ ((List.range n).flatMap fun k => frameGroup a pcs (k + 1)).flatMap serializeChunk,
        [], none, fcSeq pcs (n + 1) % 4294967296⟩ := by
  intro n
  induction n with
  | zero => intro out; simp
  | succ n ih =>
    intro out
    rw [List.range_succ, List.foldl_append, ih out, List.foldl_cons, List.foldl_nil,
      writefcTL_clean]
    have hmod : (fcSeq pcs (n + 1) % 4294967296 + 1) % 4294967296 =
        (fcSeq pcs (n + 1) + 1) % 4294967296 := by
      conv_rhs => rw [Nat.add_mod]
    rw [hmod, writefdATs_clean _ _ (fcSeq pcs (n + 1) + 1) (idats_size_getD pcs hid (n + 1))]
    have hseq : fcSeq pcs (n + 1) + 1 + (pcs.getD (n + 1) default).idats.length =
        fcSeq pcs (n + 1 + 1) := by
      conv_rhs => rw [fcSeq_succ]
      simp [idatCnt]
    rw [hseq]
    simp [frameGroup, idatCnt, List.flatMap_append, List.append_assoc]

/-- Closed form of the whole post-palette assembly phase (acTL, frame 0's
fcTL and IDATs, the later-frame loop, IEND) on a healthy encoder. -/
theorem assembleTail_clean (a : APNGData) (pcs : List PngChunk) (out : List Nat)
    (hid : ∀ pc ∈ pcs, ∀ id ∈ pc.idats, 4 + id.length < 4294967296) :
    writeChunk
      ((List.range (a.images.length - 1)).foldl
        (fun e k => writefdATs (writefcTL e a (k + 1)) ((pcs.getD (k + 1) default).idats))
        (writeIDATs (writefcTL (writeacTL ⟨out, [], none, 0⟩ a.images.length a.loopCount) a 0)
          (pcs.getD 0 default).idats))
      [] tagIEND =
    ⟨out ++ ([Chunk.mk tagacTL (u32be (a.images.length % 4294967296) ++
                u32be (a.loopCount % 4294967296)),
              Chunk.mk tagfcTL (fcPayload a 0 0)] ++
             (pcs.getD 0 default).idats.map (fun id => Chunk.mk tagIDAT id) ++
             laterFrameChunks a pcs ++ [Chunk.mk tagIEND []]).flatMap serializeChunk,
      [], none, fcSeq pcs (a.images.length - 1 + 1) % 4294967296⟩ := by
  have hidats0 : ∀ id ∈ (pcs.getD 0 default).idats, id.length < 4294967296 := by
    intro id hm
    have := idats_size_getD pcs hid 0 id hm
    omega
  rw [writeacTL_clean, writefcTL_clean]
  have h1 : (0 + 1) % 4294967296 = fcSeq pcs 1 % 4294967296 := by rw [fcSeq_one]
  rw [h1, writeIDATs_clean _ _ _ hidats0, frameLoop_clean a pcs hid (a.images.length - 1) _,
    writeChunk_clean _ _ [] tagIEND (by norm_num) rfl]
  simp [laterFrameChunks, List.flatMap_append, List.append_assoc]

/-- Master lemma: on a valid input whose streams all parse and whose chunk
payloads fit the `uint32` length field, `encodeAll` (with a never-failing
writer) succeeds and its output is the signature followed by the serialized
`fullChunkList`. -/
theorem encodeAll_ok (a : APNGData) (pcs : List PngChunk) (palOpt : Option PaletteAcc)
    (himg : a.images.length ≠ 0)
    (hdel : a.images.length = a.delays.length)
    (hdisp : disposalsMismatch a = false)
    (hreg : fullfillFrameRegionConstraints a.images = true)
    (hpal : (if (a.images.getD 0 default).isPaletted = true
        then (fetchPaletteChunk (a.images.getD 0 default).stream).map some
        else Except.ok none) = Except.ok palOpt)
    (hpcs : parseFrames a.images = Except.ok pcs)
    (hihdr : ((pcs.getD 0 default).ihdr.getD []).length < 4294967296)
    (hid : ∀ pc ∈ pcs, ∀ id ∈ pc.idats, 4 + id.length < 4294967296) :
    encodeAll [] a =
      (pngSig ++ (fullChunkList a pcs palOpt).flatMap serializeChunk, none) := by
  simp only [encodeAll]
  rw [if_neg himg,
    if_neg (show ¬(a.images.length ≠ a.delays.length) by simp [hdel]),
    if_neg (show ¬(disposalsMismatch a = true) by simp [hdisp]),
    if_neg (show ¬(¬fullfillFrameRegionConstraints a.images = true) by simp [hreg])]
  simp only [encWrite, List.nil_append]
  rw [hpal, hpcs]
  simp only [Option.isSome_none, Bool.false_eq_true, if_false, reduceCtorEq]
  rw [writeChunk_clean pngSig 0 ((pcs.getD 0 default).ihdr.getD []) tagIHDR hihdr rfl]
  rcases palOpt with _ | ⟨plteO, trnsO⟩
  · dsimp only
    rw [assembleTail_clean a pcs _ hid]
    simp [fullChunkList, palChunks, List.flatMap_append, List.append_assoc]
  · rcases plteO with _ | plteRaw
    · dsimp only
      rw [assembleTail_clean a pcs _ hid]
      simp [fullChunkList, palChunks, List.flatMap_append, List.append_assoc]
    · have h1 : ((plteRaw.drop 8).take (parseU32 (plteRaw.take 4))).length < 4294967296 := by
        rw [List.length_take]
        exact lt_of_le_of_lt (min_le_left _ _) (parseU32_lt _)
      rcases trnsO with _ | trnsRaw
      · dsimp only
        rw [writeChunk_clean _ _ _ tagPLTE h1 rfl, assembleTail_clean a pcs _ hid]
        simp [fullChunkList, palChunks, List.flatMap_append, List.append_assoc]
      · have h2 : ((trnsRaw.drop 8).take (parseU32 (trnsRaw.take 4))).length < 4294967296 := by
          rw [List.length_take]
          exact lt_of_le_of_lt (min_le_left _ _) (parseU32_lt _)
        dsimp only
        rw [writeChunk_clean _ _ _ tagPLTE h1 rfl, writeChunk_clean _ _ _ tagTRNS h2 rfl,
          assembleTail_clean a pcs _ hid]
        simp [fullChunkList, palChunks, List.flatMap_append, List.append_assoc]

/-! ## Well-formedness of the emitted chunks, and the parsed output -/

theorem palChunks_wf (palOpt : Option PaletteAcc) :
    ∀ c ∈ palChunks palOpt, WfChunk c := by
  intro c hc
  rcases palOpt with _ | ⟨plteO, trnsO⟩
  · simp [palChunks] at hc
  · rcases plteO with _ | plteRaw
    · simp [palChunks] at hc
    · have hwf : ∀ raw : List Nat, ∀ t : List Nat, t.length = 4 →
          WfChunk ⟨t, (raw.drop 8).take (parseU32 (raw.take 4))⟩ := by
        intro raw t ht
        refine ⟨ht, ?_⟩
        simp only [List.length_take]
        exact lt_of_le_of_lt (min_le_left _ _) (parseU32_lt _)
      rcases trnsO with _ | trnsRaw
      · simp only [palChunks, List.mem_singleton] at hc
        subst hc
        exact hwf plteRaw tagPLTE rfl
      · simp only [palChunks, List.mem_cons, List.mem_singleton, List.not_mem_nil,
          or_false] at hc
        rcases hc with rfl | rfl
        · exact hwf plteRaw tagPLTE rfl
        · exact hwf trnsRaw tagTRNS rfl

theorem laterFrameChunks_wf (a : APNGData) (pcs : List PngChunk)
    (hid : ∀ pc ∈ pcs, ∀ id ∈ pc.idats, 4 + id.length < 4294967296) :
    ∀ c ∈ laterFrameChunks a pcs, WfChunk c := by
  intro c hc
  simp only [laterFrameChunks, List.mem_flatMap, List.mem_range] at hc
  obtain ⟨k, _, hmem⟩ := hc
  simp only [frameGroup, List.mem_cons, List.mem_map, List.mem_range] at hmem
  rcases hmem with rfl | ⟨j, hj, rfl⟩
  · exact ⟨rfl, by rw [fcPayload_length]; norm_num⟩
  · refine ⟨rfl, ?_⟩
    have hjlt : j < (pcs.getD (k + 1) default).idats.length := by
      simpa [idatCnt] using hj
    have hmem' : (pcs.getD (k + 1) default).idats.getD j [] ∈
        (pcs.getD (k + 1) default).idats := by
      rw [List.getD_eq_getElem _ _ hjlt]
      exact List.getElem_mem hjlt
    have := idats_size_getD pcs hid (k + 1) _ hmem'
    simp only [List.length_append, u32be_length]
    omega

theorem fullChunkList_wf (a : APNGData) (pcs : List PngChunk) (palOpt : Option PaletteAcc)
    (hihdr : ((pcs.getD 0 default).ihdr.getD []).length < 4294967296)
    (hid : ∀ pc ∈ pcs, ∀ id ∈ pc.idats, 4 + id.length < 4294967296) :
    ∀ c ∈ fullChunkList a pcs palOpt, WfChunk c := by
  intro c hc
  simp only [fullChunkList] at hc
  rcases List.mem_cons.mp hc with rfl | hc2
  · exact ⟨rfl, hihdr⟩
  rcases List.mem_append.mp hc2 with hc3 | hc4
  · rcases List.mem_append.mp hc3 with hc5 | hc6
    · rcases List.mem_append.mp hc5 with hc7 | hc8
      · rcases List.mem_append.mp hc7 with hc9 | hc10
        · exact palChunks_wf palOpt c hc9
        · simp only [List.mem_cons, List.mem_singleton, List.not_mem_nil, or_false] at hc10
          rcases hc10 with rfl | rfl
          · exact ⟨rfl, by simp [u32be]⟩
          · exact ⟨rfl, by rw [fcPayload_length]; norm_num⟩
      · obtain ⟨id, hmem, rfl⟩ := List.mem_map.mp hc8
        have := idats_size_getD pcs hid 0 id hmem
        exact ⟨rfl, by show id.length < 4294967296; omega⟩
    · exact laterFrameChunks_wf a pcs hid c hc6
  · rcases List.mem_singleton.mp hc4 with rfl
    exact ⟨rfl, by norm_num⟩

/-- Re-parsing the bytes of a successful `encodeAll` yields exactly the
expected chunk sequence. -/
theorem encodeAll_parse (a : APNGData) (pcs : List PngChunk) (palOpt : Option PaletteAcc)
    (himg : a.images.length ≠ 0)
    (hdel : a.images.length = a.delays.length)
    (hdisp : disposalsMismatch a = false)
    (hreg : fullfillFrameRegionConstraints a.images = true)
    (hpal : (if (a.images.getD 0 default).isPaletted = true
        then (fetchPaletteChunk (a.images.getD 0 default).stream).map some
        else Except.ok none) = Except.ok palOpt)
    (hpcs : parseFrames a.images = Except.ok pcs)
    (hihdr : ((pcs.getD 0 default).ihdr.getD []).length < 4294967296)
    (hid : ∀ pc ∈ pcs, ∀ id ∈ pc.idats, 4 + id.length < 4294967296) :
    parseContainer (encodeAll [] a).1 = some (fullChunkList a pcs palOpt) ∧
      (encodeAll [] a).2 = none := by
  rw [encodeAll_ok a pcs palOpt himg hdel hdisp hreg hpal hpcs hihdr hid]
  exact ⟨parseContainer_flatMap _ (fullChunkList_wf a pcs palOpt hihdr hid), rfl⟩

/-! ## Which errors the post-validation phases can produce -/

/-- Errors that can arise after validation has passed: truncated or
oversized upstream streams, an oversized chunk, or an underlying write
failure — never one of the validation sentinels. -/
def PostErr (o : Option GoErr) : Prop :=
  ∀ er, o = some er →
    er = .unexpectedEOF ∨ er = .sliceOOB ∨ er = .chunkTooLarge ∨ ∃ n, er = .writerErr n

theorem postErr_none : PostErr none := by
  intro er h
  cases h

theorem encWrite_post (e : Enc) (bs : List Nat) (h : PostErr e.err) :
    PostErr (encWrite e bs).err := by
  rcases e with ⟨out, sched, err, s⟩
  rcases sched with _ | ⟨o, rest⟩
  · exact h
  · rcases o with _ | n
    · exact h
    · intro er her
      simp [encWrite] at her
      subst her
      exact Or.inr (Or.inr (Or.inr ⟨n, rfl⟩))

theorem writeChunk_post (e : Enc) (b nm : List Nat) (h : PostErr e.err) :
    PostErr (writeChunk e b nm).err := by
  rw [writeChunk]
  by_cases h0 : e.err.isSome
  · simpa [h0] using h
  by_cases h1 : 4294967296 ≤ b.length
  · intro er her
    simp [h0, h1] at her
    simp [← her]
  simp only [h0, h1, if_false, reduceIte]
  have p1 := encWrite_post e (u32be b.length ++ nm.take 4) h
  by_cases h2 : (encWrite e (u32be b.length ++ nm.take 4)).err.isSome
  · simpa [h2] using p1
  simp only [h2, if_false, reduceIte]
  have p2 := encWrite_post _ b p1
  by_cases h3 : (encWrite (encWrite e (u32be b.length ++ nm.take 4)) b).err.isSome
  · simpa [h3] using p2
  simp only [h3, if_false, reduceIte]
  exact encWrite_post _ _ p2

theorem writefcTL_post (e : Enc) (a : APNGData) (i : Nat) (h : PostErr e.err) :
    PostErr (writefcTL e a i).err := by
  rw [writefcTL]
  exact writeChunk_post _ _ _ h

theorem writeacTL_post (e : Enc) (nf lc : Nat) (h : PostErr e.err) :
    PostErr (writeacTL e nf lc).err := by
  rw [writeacTL]
  exact writeChunk_post _ _ _ h

theorem writeIDATs_post (ids : List (List Nat)) :
    ∀ e : Enc, PostErr e.err → PostErr (writeIDATs e ids).err := by
  induction ids with
  | nil => intro e h; exact h
  | cons id rest ih =>
    intro e h
    rw [writeIDATs, List.foldl_cons]
    exact ih _ (writeChunk_post _ _ _ h)

theorem writefdATs_post (ids : List (List Nat)) :
    ∀ e : Enc, PostErr e.err → PostErr (writefdATs e ids).err := by
  induction ids with
  | nil => intro e h; exact h
  | cons id rest ih =>
    intro e h
    rw [writefdATs, List.foldl_cons]
    exact ih _ (writeChunk_post _ _ _ h)

theorem frameLoop_post (a : APNGData) (pcs : List PngChunk) (l : List Nat) :
    ∀ e : Enc, PostErr e.err →
      PostErr ((l.foldl
        (fun e k => writefdATs (writefcTL e a (k + 1)) ((pcs.getD (k + 1) default).idats))
        e).err) := by
  induction l with
  | nil => intro e h; exact h
  | cons k rest ih =>
    intro e h
    rw [List.foldl_cons]
    exact ih _ (writefdATs_post _ _ (writefcTL_post _ _ _ h))

theorem fetchLoop_err (fuel : Nat) :
    ∀ bs acc er, fetchLoop fuel bs acc = Except.error er →
      er = GoErr.unexpectedEOF ∨ er = GoErr.sliceOOB := by
  induction fuel with
  | zero =>
    intro bs acc er h
    simp only [fetchLoop] at h
    cases h
    exact Or.inl rfl
  | succ n ih =>
    intro bs acc er h
    simp only [fetchLoop] at h
    repeat' split at h
    all_goals
      first
      | (cases h; exact Or.inl rfl)
      | (cases h; exact Or.inr rfl)
      | cases h
      | exact ih _ _ _ h

theorem paletteLoop_err (fuel : Nat) :
    ∀ bs acc er, paletteLoop fuel bs acc = Except.error er →
      er = GoErr.unexpectedEOF ∨ er = GoErr.sliceOOB := by
  induction fuel with
  | zero =>
    intro bs acc er h
    simp only [paletteLoop] at h
    cases h
    exact Or.inl rfl
  | succ n ih =>
    intro bs acc er h
    simp only [paletteLoop] at h
    repeat' split at h
    all_goals
      first
      | (cases h; exact Or.inl rfl)
      | (cases h; exact Or.inr rfl)
      | cases h
      | exact ih _ _ _ h

theorem parseFrames_err (imgs : List GoImage) (er : GoErr)
    (h : parseFrames imgs = .error er) :
    er = .unexpectedEOF ∨ er = .sliceOOB := by
  induction imgs with
  | nil => cases h
  | cons im rest ih =>
    rw [parseFrames] at h
    rcases hx : fetchPNGChunk im.stream with er2 | pc
    · rw [hx] at h
      cases h
      rw [fetchPNGChunk] at hx
      exact fetchLoop_err _ _ _ _ hx
    · rw [hx] at h
      rcases hy : parseFrames rest with er3 | pcs
      · rw [hy] at h
        cases h
        exact ih hy
      · rw [hy] at h
        cases h

/-- After the four validation checks pass, `encodeAll` can only fail with a
truncated/oversized-stream error, an oversized chunk, or a writer error —
never with a validation sentinel. -/
theorem encodeAll_post (sched : List (Option Nat)) (a : APNGData)
    (himg : a.images.length ≠ 0)
    (hdel : a.images.length = a.delays.length)
    (hdisp : disposalsMismatch a = false)
    (hreg : fullfillFrameRegionConstraints a.images = true) :
    PostErr (encodeAll sched a).2 := by
  have hpost1 : PostErr (encWrite ⟨[], sched, none, 0⟩ pngSig).err :=
    encWrite_post _ _ postErr_none
  simp only [encodeAll]
  rw [if_neg himg, if_neg (show ¬(a.images.length ≠ a.delays.length) by simp [hdel]),
    if_neg (show ¬(disposalsMismatch a = true) by simp [hdisp]),
    if_neg (show ¬(¬fullfillFrameRegionConstraints a.images = true) by simp [hreg])]
  rcases hx : (if (a.images.getD 0 default).isPaletted = true
      then (fetchPaletteChunk (a.images.getD 0 default).stream).map some
      else Except.ok none) with er | palOpt
  · dsimp only
    intro er2 her2
    cases her2
    rcases hp : (a.images.getD 0 default).isPaletted with _ | _
    · rw [if_neg (by rw [hp]; simp)] at hx
      cases hx
    · rw [if_pos hp] at hx
      rcases hq : fetchPaletteChunk (a.images.getD 0 default).stream with er3 | pal
      · rw [hq] at hx
        cases hx
        rw [fetchPaletteChunk] at hq
        rcases paletteLoop_err _ _ _ _ hq with rfl | rfl
        · exact Or.inl rfl
        · exact Or.inr (Or.inl rfl)
      · rw [hq] at hx
        cases hx
  · dsimp only
    rcases hy : parseFrames a.images with er | pcs
    · dsimp only
      by_cases hz : (encWrite ⟨[], sched, none, 0⟩ pngSig).err.isSome
      · simpa [hz] using hpost1
      · intro er2 her2
        simp only [hz, Bool.false_eq_true, if_false, reduceIte] at her2
        cases her2
        rcases parseFrames_err _ _ hy with rfl | rfl
        · exact Or.inl rfl
        · exact Or.inr (Or.inl rfl)
    · dsimp only
      by_cases hz : (encWrite ⟨[], sched, none, 0⟩ pngSig).err.isSome
      · simpa [hz] using hpost1
      · simp only [hz, if_false, reduceIte]
        have hpost2 : PostErr (writeChunk (encWrite ⟨[], sched, none, 0⟩ pngSig)
            ((pcs.getD 0 default).ihdr.getD []) tagIHDR).err :=
          writeChunk_post _ _ _ hpost1
        rcases palOpt with _ | ⟨plteO, trnsO⟩
        · dsimp only
          exact writeChunk_post _ _ _
            (frameLoop_post a pcs _ _
              (writeIDATs_post _ _
                (writefcTL_post _ _ _ (writeacTL_post _ _ _ hpost2))))
        · rcases plteO with _ | plteRaw
          · dsimp only
            exact writeChunk_post _ _ _
              (frameLoop_post a pcs _ _
                (writeIDATs_post _ _
                  (writefcTL_post _ _ _ (writeacTL_post _ _ _ hpost2))))
          · rcases trnsO with _ | trnsRaw
            · dsimp only
              exact writeChunk_post _ _ _
                (frameLoop_post a pcs _ _
                  (writeIDATs_post _ _
                    (writefcTL_post _ _ _
                      (writeacTL_post _ _ _ (writeChunk_post _ _ _ hpost2)))))
            · dsimp only
              exact writeChunk_post _ _ _
                (frameLoop_post a pcs _ _
                  (writeIDATs_post _ _
                    (writefcTL_post _ _ _
                      (writeacTL_post _ _ _
                        (writeChunk_post _ _ _ (writeChunk_post _ _ _ hpost2))))))

/-! ## Reading off facts from the parsed chunk sequence -/

/-- Predicate selecting chunks with a given 4-byte tag. -/
def tagIs (t : List Nat) (c : Chunk) : Bool := decide (c.tag = t)

/-- Sequence-number extraction: `fcTL` and `fdAT` chunks carry their
sequence number in their first four payload bytes. -/
def seqOf (c : Chunk) : Option Nat :=
  if c.tag = tagfcTL ∨ c.tag = tagfdAT then some (parseU32 (c.payload.take 4)) else none

theorem filter_flatMap {α β : Type} (l : List α) (f : α → List β) (p : β → Bool) :
    (l.flatMap f).filter p = l.flatMap fun x => (f x).filter p := by
  induction l with
  | nil => rfl
  | cons x xs ih => simp [List.flatMap_cons, List.filter_append, ih]

theorem filterMap_flatMap {α β γ : Type} (l : List α) (f : α → List β) (g : β → Option γ) :
    (l.flatMap f).filterMap g = l.flatMap fun x => (f x).filterMap g := by
  induction l with
  | nil => rfl
  | cons x xs ih => simp [List.flatMap_cons, List.filterMap_append, ih]

theorem flatMap_singleton_eq_map {α β : Type} (l : List α) (g : α → β) :
    (l.flatMap fun x => [g x]) = l.map g := by
  induction l with
  | nil => rfl
  | cons x xs ih => simp [List.flatMap_cons, ih]

theorem filter_map_const_false {α β : Type} (l : List α) (f : α → β) (p : β → Bool)
    (h : ∀ x, p (f x) = false) : (l.map f).filter p = [] := by
  induction l with
  | nil => rfl
  | cons x xs ih => simp [h, ih]

theorem filter_map_const_true {α β : Type} (l : List α) (f : α → β) (p : β → Bool)
    (h : ∀ x, p (f x) = true) : (l.map f).filter p = l.map f := by
  induction l with
  | nil => rfl
  | cons x xs ih => simp [h, ih]

theorem fcPayload_take4 (a : APNGData) (i s : Nat) : (fcPayload a i s).take 4 = u32be s := by
  have : fcPayload a i s = u32be s ++ ((u32be (goUint32 (((a.images.getD i default).bounds).maxX -
      ((a.images.getD i default).bounds).minX))) ++
      (u32be (goUint32 (((a.images.getD i default).bounds).maxY -
        ((a.images.getD i default).bounds).minY))) ++
      (u32be (goUint32 ((a.images.getD i default).bounds).minX)) ++
      (u32be (goUint32 ((a.images.getD i default).bounds).minY)) ++
      u16be (a.delays.getD i 0) ++ u16be 100 ++
      [(match a.disposals with
        | some d => d.getD i 0 % 256
        | none => 0), 0]) := by
    simp [fcPayload, List.append_assoc]
  rw [this]
  exact take_append_left _ _ _ (u32be_length s)

/-- No chunk in `palChunks` carries tag `t` when `t` is neither PLTE nor tRNS. -/
theorem palChunks_filter_ne (palOpt : Option PaletteAcc) (t : List Nat)
    (h1 : t ≠ tagPLTE) (h2 : t ≠ tagTRNS) :
    (palChunks palOpt).filter (tagIs t) = [] := by
  apply List.filter_eq_nil_iff.mpr
  intro c hc
  rcases palOpt with _ | ⟨plteO, trnsO⟩
  · simp [palChunks] at hc
  · rcases plteO with _ | plteRaw
    · simp [palChunks] at hc
    · rcases trnsO with _ | trnsRaw
      · simp only [palChunks, List.mem_singleton] at hc
        subst hc
        simp [tagIs]
        exact fun hx => absurd hx.symm h1
      · simp only [palChunks, List.mem_cons, List.mem_singleton, List.not_mem_nil,
          or_false] at hc
        rcases hc with rfl | rfl
        · simp [tagIs]
          exact fun hx => absurd hx.symm h1
        · simp [tagIs]
          exact fun hx => absurd hx.symm h2

/-- The frame groups of later frames contain only `fcTL` and `fdAT` chunks. -/
theorem later_filter_ne (a : APNGData) (pcs : List PngChunk) (t : List Nat)
    (h1 : t ≠ tagfcTL) (h2 : t ≠ tagfdAT) :
    (laterFrameChunks a pcs).filter (tagIs t) = [] := by
  apply List.filter_eq_nil_iff.mpr
  intro c hc
  simp only [laterFrameChunks, List.mem_flatMap, List.mem_range] at hc
  obtain ⟨k, _, hmem⟩ := hc
  simp only [frameGroup, List.mem_cons, List.mem_map, List.mem_range] at hmem
  rcases hmem with rfl | ⟨j, hj, rfl⟩
  · simp [tagIs]
    exact fun hx => absurd hx.symm h1
  · simp [tagIs]
    exact fun hx => absurd hx.symm h2

/-- The `fcTL` chunks of the output, in order. -/
theorem full_filter_fcTL (a : APNGData) (pcs : List PngChunk) (palOpt : Option PaletteAcc) :
    (fullChunkList a pcs palOpt).filter (tagIs tagfcTL) =
      ⟨tagfcTL, fcPayload a 0 0⟩ ::
        (List.range (a.images.length - 1)).map
          (fun k => ⟨tagfcTL, fcPayload a (k + 1) (fcSeq pcs (k + 1) % 4294967296)⟩) := by
  have hlater : (laterFrameChunks a pcs).filter (tagIs tagfcTL) =
      (List.range (a.images.length - 1)).map
        (fun k => (⟨tagfcTL, fcPayload a (k + 1) (fcSeq pcs (k + 1) % 4294967296)⟩ : Chunk)) := by
    have hgrp : ∀ k : Nat, (frameGroup a pcs (k + 1)).filter (tagIs tagfcTL) =
        [⟨tagfcTL, fcPayload a (k + 1) (fcSeq pcs (k + 1) % 4294967296)⟩] := by
      intro k
      rw [frameGroup, List.filter_cons, if_pos (by simp [tagIs]),
        filter_map_const_false _ _ _ (fun j => by simp [tagIs, tagfdAT, tagfcTL])]
    rw [laterFrameChunks, filter_flatMap]
    simp only [hgrp]
    exact flatMap_singleton_eq_map _ _
  rw [fullChunkList]
  simp only [List.filter_append]
  rw [List.filter_cons, if_neg (by simp [tagIs, tagIHDR, tagfcTL]),
    palChunks_filter_ne palOpt _ (by simp [tagfcTL, tagPLTE]) (by simp [tagfcTL, tagTRNS]),
    hlater, filter_map_const_false _ _ _ (fun id => by simp [tagIs, tagIDAT, tagfcTL])]
  simp [tagIs, List.filter_cons, tagacTL, tagfcTL, tagIEND]

/-- The `fdAT` chunks of the output, in order. -/
theorem full_filter_fdAT (a : APNGData) (pcs : List PngChunk) (palOpt : Option PaletteAcc) :
    (fullChunkList a pcs palOpt).filter (tagIs tagfdAT) =
      (List.range (a.images.length - 1)).flatMap
        (fun k => (List.range (idatCnt pcs (k + 1))).map
          (fun j => ⟨tagfdAT, u32be ((fcSeq pcs (k + 1) + 1 + j) % 4294967296) ++
            (pcs.getD (k + 1) default).idats.getD j []⟩)) := by
  have hgrp : ∀ k : Nat, (frameGroup a pcs (k + 1)).filter (tagIs tagfdAT) =
      (List.range (idatCnt pcs (k + 1))).map
        (fun j => (⟨tagfdAT, u32be ((fcSeq pcs (k + 1) + 1 + j) % 4294967296) ++
          (pcs.getD (k + 1) default).idats.getD j []⟩ : Chunk)) := by
    intro k
    rw [frameGroup, List.filter_cons, if_neg (by simp [tagIs, tagfcTL, tagfdAT]),
      filter_map_const_true _ _ _ (fun j => by simp [tagIs])]
  have hlater : (laterFrameChunks a pcs).filter (tagIs tagfdAT) =
      (List.range (a.images.length - 1)).flatMap
        (fun k => (List.range (idatCnt pcs (k + 1))).map
          (fun j => (⟨tagfdAT, u32be ((fcSeq pcs (k + 1) + 1 + j) % 4294967296) ++
            (pcs.getD (k + 1) default).idats.getD j []⟩ : Chunk))) := by
    rw [laterFrameChunks, filter_flatMap]
    simp only [hgrp]
  rw [fullChunkList]
  simp only [List.filter_append]
  rw [List.filter_cons, if_neg (by simp [tagIs, tagIHDR, tagfdAT]),
    palChunks_filter_ne palOpt _ (by simp [tagfdAT, tagPLTE]) (by simp [tagfdAT, tagTRNS]),
    hlater, filter_map_const_false _ _ _ (fun id => by simp [tagIs, tagIDAT, tagfdAT])]
  simp [tagIs, List.filter_cons, tagacTL, tagfdAT, tagfcTL, tagIEND]

/-- The single `acTL` chunk of the output. -/
theorem full_filter_acTL (a : APNGData) (pcs : List PngChunk) (palOpt : Option PaletteAcc) :
    (fullChunkList a pcs palOpt).filter (tagIs tagacTL) =
      [⟨tagacTL, u32be (a.images.length % 4294967296) ++ u32be (a.loopCount % 4294967296)⟩] := by
  rw [fullChunkList]
  simp only [List.filter_append]
  rw [List.filter_cons, if_neg (by simp [tagIs, tagIHDR, tagacTL]),
    palChunks_filter_ne palOpt _ (by simp [tagacTL, tagPLTE]) (by simp [tagacTL, tagTRNS]),
    later_filter_ne a pcs _ (by simp [tagacTL, tagfcTL]) (by simp [tagacTL, tagfdAT]),
    filter_map_const_false _ _ _ (fun id => by simp [tagIs, tagIDAT, tagacTL])]
  simp [tagIs, List.filter_cons, tagacTL, tagfcTL, tagIEND]

/-- The `IDAT` chunks of the output: exactly frame 0's data payloads. -/
theorem full_filter_IDAT (a : APNGData) (pcs : List PngChunk) (palOpt : Option PaletteAcc) :
    (fullChunkList a pcs palOpt).filter (tagIs tagIDAT) =
      (pcs.getD 0 default).idats.map (fun id => ⟨tagIDAT, id⟩) := by
  rw [fullChunkList]
  simp only [List.filter_append]
  rw [List.filter_cons, if_neg (by simp [tagIs, tagIHDR, tagIDAT]),
    palChunks_filter_ne palOpt _ (by simp [tagIDAT, tagPLTE]) (by simp [tagIDAT, tagTRNS]),
    later_filter_ne a pcs _ (by simp [tagIDAT, tagfcTL]) (by simp [tagIDAT, tagfdAT]),
    filter_map_const_true _ _ _ (fun id => by simp [tagIs])]
  simp [tagIs, List.filter_cons, tagacTL, tagfcTL, tagIDAT, tagIEND]

/-- Only the palette block can contribute chunks tagged PLTE or tRNS. -/
theorem full_filter_pal_only (a : APNGData) (pcs : List PngChunk) (palOpt : Option PaletteAcc)
    (t : List Nat) (h1 : t ≠ tagIHDR) (h2 : t ≠ tagacTL) (h3 : t ≠ tagfcTL)
    (h4 : t ≠ tagIDAT) (h5 : t ≠ tagfdAT) (h6 : t ≠ tagIEND) :
    (fullChunkList a pcs palOpt).filter (tagIs t) = (palChunks palOpt).filter (tagIs t) := by
  rw [fullChunkList]
  simp only [List.filter_append]
  rw [List.filter_cons, if_neg (by simp [tagIs]; exact fun hx => absurd hx.symm h1),
    later_filter_ne a pcs _ h3 h5,
    filter_map_const_false _ _ _
      (fun id => by simp [tagIs]; exact fun hx => absurd hx.symm h4)]
  have hlit : List.filter (tagIs t)
      [(⟨tagacTL, u32be (a.images.length % 4294967296) ++
          u32be (a.loopCount % 4294967296)⟩ : Chunk),
       ⟨tagfcTL, fcPayload a 0 0⟩] = [] := by
    rw [List.filter_cons, if_neg (by simp [tagIs]; exact fun hx => absurd hx.symm h2),
      List.filter_cons, if_neg (by simp [tagIs]; exact fun hx => absurd hx.symm h3)]
    rfl
  have hend : List.filter (tagIs t) [(⟨tagIEND, []⟩ : Chunk)] = [] := by
    rw [List.filter_cons, if_neg (by simp [tagIs]; exact fun hx => absurd hx.symm h6)]
    rfl
  rw [hlit, hend]
  simp

/-- The three possible shapes of the palette block. -/
theorem palChunks_cases (palOpt : Option PaletteAcc) :
    palChunks palOpt = [] ∨
    (∃ p, palChunks palOpt = [⟨tagPLTE, p⟩]) ∨
    (∃ p t, palChunks palOpt = [⟨tagPLTE, p⟩, ⟨tagTRNS, t⟩]) := by
  rcases palOpt with _ | ⟨plteO, trnsO⟩
  · exact Or.inl rfl
  · rcases plteO with _ | plteRaw
    · exact Or.inl rfl
    · rcases trnsO with _ | trnsRaw
      · exact Or.inr (Or.inl ⟨_, rfl⟩)
      · exact Or.inr (Or.inr ⟨_, _, rfl⟩)

/-! ## The sequence numbers of the output -/

theorem range'_append' (s m n : Nat) :
    List.range' s m ++ List.range' (s + m) n = List.range' s (m + n) := by
  have h := List.range'_append s m n 1
  simp only [one_mul] at h
  rw [Nat.add_comm n m] at h
  exact h

theorem filterMap_some_map {α β : Type} (l : List α) (g : α → β) :
    l.filterMap (fun x => some (g x)) = l.map g := by
  induction l with
  | nil => rfl
  | cons x xs ih => simp [ih]

theorem seqOf_fcTL (a : APNGData) (i s : Nat) :
    seqOf ⟨tagfcTL, fcPayload a i s⟩ = some (parseU32 (u32be s)) := by
  simp [seqOf, fcPayload_take4]

theorem seqOf_fdAT (v : Nat) (id : List Nat) :
    seqOf ⟨tagfdAT, u32be v ++ id⟩ = some (parseU32 (u32be v)) := by
  have ht : (u32be v ++ id).take 4 = u32be v := take_append_left _ _ 4 (u32be_length v)
  simp [seqOf, ht, tagfdAT, tagfcTL]

/-- Sequence numbers of one later-frame group, with the counter in range. -/
theorem group_seqs (a : APNGData) (pcs : List PngChunk) (k : Nat)
    (hm : fcSeq pcs (k + 1) + 1 + idatCnt pcs (k + 1) ≤ 4294967296) :
    (frameGroup a pcs (k + 1)).filterMap seqOf =
      List.range' (fcSeq pcs (k + 1)) (1 + idatCnt pcs (k + 1)) := by
  have h1 : fcSeq pcs (k + 1) < 4294967296 := by omega
  have hmod : fcSeq pcs (k + 1) % 4294967296 = fcSeq pcs (k + 1) := Nat.mod_eq_of_lt h1
  rw [frameGroup, List.filterMap_cons]
  rw [seqOf_fcTL, parseU32_u32be _ (by omega : fcSeq pcs (k + 1) % 4294967296 < 4294967296),
    hmod]
  have htail : ((List.range (idatCnt pcs (k + 1))).map fun j =>
      (⟨tagfdAT, u32be ((fcSeq pcs (k + 1) + 1 + j) % 4294967296) ++
        (pcs.getD (k + 1) default).idats.getD j []⟩ : Chunk)).filterMap seqOf =
      (List.range (idatCnt pcs (k + 1))).map (fun j => fcSeq pcs (k + 1) + 1 + j) := by
    rw [List.filterMap_map]
    have hcong : ∀ j ∈ List.range (idatCnt pcs (k + 1)),
        (seqOf ∘ fun j => (⟨tagfdAT, u32be ((fcSeq pcs (k + 1) + 1 + j) % 4294967296) ++
          (pcs.getD (k + 1) default).idats.getD j []⟩ : Chunk)) j =
        (fun j => some (fcSeq pcs (k + 1) + 1 + j)) j := by
      intro j hj
      have hjlt : j < idatCnt pcs (k + 1) := List.mem_range.mp hj
      have hv : fcSeq pcs (k + 1) + 1 + j < 4294967296 := by omega
      simp only [Function.comp_apply, seqOf_fdAT]
      rw [parseU32_u32be _ (by omega : (fcSeq pcs (k + 1) + 1 + j) % 4294967296 < 4294967296),
        Nat.mod_eq_of_lt hv]
    rw [List.filterMap_congr hcong, filterMap_some_map]
  rw [htail]
  have hr : List.range' (fcSeq pcs (k + 1)) (idatCnt pcs (k + 1) + 1) =
      fcSeq pcs (k + 1) :: List.range' (fcSeq pcs (k + 1) + 1) (idatCnt pcs (k + 1)) :=
    List.range'_succ _ _ _
  rw [Nat.add_comm 1 (idatCnt pcs (k + 1)), hr, List.range'_eq_map_range]

/-- Sequence numbers of all later-frame groups: the consecutive run
`1, 2, …`. -/
theorem later_seqs (a : APNGData) (pcs : List PngChunk) :
    ∀ n : Nat, fcSeq pcs (n + 1) ≤ 4294967296 →
      (((List.range n).flatMap fun k => frameGroup a pcs (k + 1)).filterMap seqOf) =
        List.range' 1 (fcSeq pcs (n + 1) - 1) := by
  intro n
  induction n with
  | zero =>
    intro h
    simp [fcSeq_one]
  | succ n ih =>
    intro h
    have hstep : fcSeq pcs (n + 1 + 1) = fcSeq pcs (n + 1) + 1 + idatCnt pcs (n + 1) := by
      rw [fcSeq_succ]
      simp
    have hmono : fcSeq pcs (n + 1) ≤ fcSeq pcs (n + 1 + 1) := fcSeq_mono pcs (by omega)
    have hone : 1 ≤ fcSeq pcs (n + 1) := by
      have := fcSeq_mono pcs (show 1 ≤ n + 1 by omega)
      rw [fcSeq_one] at this
      exact this
    rw [List.range_succ, List.flatMap_append, List.filterMap_append, ih (le_trans hmono h)]
    have hsingle : (([n].flatMap fun k => frameGroup a pcs (k + 1)).filterMap seqOf) =
        (frameGroup a pcs (n + 1)).filterMap seqOf := by
      simp
    rw [hsingle, group_seqs a pcs n (by omega)]
    have e1 : fcSeq pcs (n + 1) = 1 + (fcSeq pcs (n + 1) - 1) := by omega
    have happ := range'_append' 1 (fcSeq pcs (n + 1) - 1) (1 + idatCnt pcs (n + 1))
    rw [← e1] at happ
    rw [happ]
    congr 1
    omega

/-- All sequence numbers of the output, in emission order: exactly
`0, 1, 2, …` with no gaps. -/
theorem full_seqs (a : APNGData) (pcs : List PngChunk) (palOpt : Option PaletteAcc)
    (himg : a.images.length ≠ 0)
    (htot : seqTotal pcs a.images.length ≤ 4294967296) :
    (fullChunkList a pcs palOpt).filterMap seqOf =
      List.range (seqTotal pcs a.images.length) := by
  have hpal : (palChunks palOpt).filterMap seqOf = [] := by
    rcases palChunks_cases palOpt with h | ⟨p, h⟩ | ⟨p, t, h⟩ <;> rw [h] <;>
      simp [seqOf, tagPLTE, tagTRNS, tagfcTL, tagfdAT]
  have hIHDR : seqOf ⟨tagIHDR, (pcs.getD 0 default).ihdr.getD []⟩ = none := by
    simp [seqOf, tagIHDR, tagfcTL, tagfdAT]
  have hacTL : seqOf ⟨tagacTL, u32be (a.images.length % 4294967296) ++
      u32be (a.loopCount % 4294967296)⟩ = none := by
    simp [seqOf, tagacTL, tagfcTL, tagfdAT]
  have hIEND : seqOf (⟨tagIEND, []⟩ : Chunk) = none := by
    simp [seqOf, tagIEND, tagfcTL, tagfdAT]
  have hidat : ((pcs.getD 0 default).idats.map fun id =>
      (⟨tagIDAT, id⟩ : Chunk)).filterMap seqOf = [] := by
    rw [List.filterMap_map]
    have : ∀ id ∈ (pcs.getD 0 default).idats,
        (seqOf ∘ fun id => (⟨tagIDAT, id⟩ : Chunk)) id = (fun _ => (none : Option Nat)) id := by
      intro id _
      simp [seqOf, tagIDAT, tagfcTL, tagfdAT]
    rw [List.filterMap_congr this]
    simp
  have hzero : seqOf ⟨tagfcTL, fcPayload a 0 0⟩ = some 0 := by
    rw [seqOf_fcTL, parseU32_u32be 0 (by norm_num)]
  have hN : a.images.length - 1 + 1 = a.images.length := by omega
  have hlater := later_seqs a pcs (a.images.length - 1) (by rw [hN]; exact htot)
  rw [hN] at hlater
  have hone : 1 ≤ fcSeq pcs a.images.length := by
    have := fcSeq_mono pcs (show 1 ≤ a.images.length by omega)
    rw [fcSeq_one] at this
    exact this
  have hlater2 : (laterFrameChunks a pcs).filterMap seqOf =
      List.range' 1 (fcSeq pcs a.images.length - 1) := by
    rw [laterFrameChunks]
    exact hlater
  rw [fullChunkList]
  simp only [List.filterMap_append, List.filterMap_cons, hIHDR, hacTL, hIEND, hzero, hpal,
    hidat, hlater2]
  simp only [List.filterMap_nil, List.nil_append, List.append_nil]
  have hkey : (0 : Nat) :: List.range' 1 (fcSeq pcs a.images.length - 1) =
      List.range' 0 (fcSeq pcs a.images.length) := by
    have h0 : fcSeq pcs a.images.length = (fcSeq pcs a.images.length - 1) + 1 := by omega
    conv_rhs => rw [h0]
    rw [List.range'_succ]
  rw [List.singleton_append]
  simp only [seqTotal, List.range_eq_range']
  exact hkey

/-! ## Remaining helpers for the claim statements -/

theorem flatMap_congr {α β : Type} (l : List α) (f g : α → List β)
    (h : ∀ x ∈ l, f x = g x) : l.flatMap f = l.flatMap g := by
  induction l with
  | nil => rfl
  | cons x xs ih =>
    rw [List.flatMap_cons, List.flatMap_cons, h x (by simp), ih (fun y hy => h y (by simp [hy]))]

theorem length_flatMap {α β : Type} (l : List α) (f : α → List β) :
    (l.flatMap f).length = (l.map fun a => (f a).length).sum := by
  induction l with
  | nil => rfl
  | cons x xs ih => simp [List.flatMap_cons, ih]

/-- Indexing into the closed-form `fcTL` chunk list. -/
theorem fcTL_list_getD (a : APNGData) (pcs : List PngChunk) (i : Nat)
    (hi : i < a.images.length) :
    (⟨tagfcTL, fcPayload a 0 0⟩ ::
        (List.range (a.images.length - 1)).map
          (fun k => (⟨tagfcTL, fcPayload a (k + 1) (fcSeq pcs (k + 1) % 4294967296)⟩ : Chunk))).getD
      i default = ⟨tagfcTL, fcPayload a i (fcSeq pcs i % 4294967296)⟩ := by
  cases i with
  | zero =>
    rw [List.getD_cons_zero]
    rw [fcSeq_zero]
  | succ k =>
    rw [List.getD_cons_succ]
    have hk : k < a.images.length - 1 := by omega
    have hk2 : k < (List.range (a.images.length - 1)).length := by simpa using hk
    rw [List.getD_eq_getElem _ _ (by simpa using hk)]
    simp

/-- The canvas-containment property in the claim's words: the first frame's
origin is non-negative, and every later frame has a non-negative origin and
maximum extents not exceeding the first frame's. -/
def regionWithin (imgs : List GoImage) : Prop :=
  imgs ≠ [] ∧
  (0 ≤ (imgs.getD 0 default).bounds.minX ∧ 0 ≤ (imgs.getD 0 default).bounds.minY) ∧
  ∀ im ∈ imgs.tail, 0 ≤ im.bounds.minX ∧ 0 ≤ im.bounds.minY ∧
    im.bounds.maxX ≤ (imgs.getD 0 default).bounds.maxX ∧
    im.bounds.maxY ≤ (imgs.getD 0 default).bounds.maxY

instance (imgs : List GoImage) : Decidable (regionWithin imgs) := by
  unfold regionWithin
  infer_instance

/-- The code's region check agrees with the claim's description. -/
theorem fullfill_iff_regionWithin (imgs : List GoImage) :
    fullfillFrameRegionConstraints imgs = true ↔ regionWithin imgs := by
  cases imgs with
  | nil => simp [fullfillFrameRegionConstraints, regionWithin]
  | cons r rest =>
    simp only [fullfillFrameRegionConstraints, regionWithin, List.all_eq_true,
      Bool.and_eq_true, decide_eq_true_eq, List.getD_cons_zero, List.tail_cons, ne_eq,
      reduceCtorEq, not_false_eq_true, true_and]
    constructor
    · rintro ⟨⟨h1, h2⟩, h3⟩
      refine ⟨⟨h1, h2⟩, fun im hm => ?_⟩
      have h := h3 im hm
      tauto
    · rintro ⟨⟨h1, h2⟩, h3⟩
      refine ⟨⟨h1, h2⟩, fun im hm => ?_⟩
      have h := h3 im hm
      tauto

/-! ## Concrete example inputs -/

/-- A minimal well-formed single-image stream: signature, a 13-byte IHDR,
one IDAT payload `[1, 2, 3]`, IEND. -/
def exStream : List Nat :=
  pngSig ++ serializeChunk ⟨tagIHDR, List.replicate 13 0⟩ ++
    serializeChunk ⟨tagIDAT, [1, 2, 3]⟩ ++ serializeChunk ⟨tagIEND, []⟩

/-- A 2×2 frame at the origin with a given color model. -/
def exImg (cm : Nat) : GoImage :=
  { bounds := { minX := 0, minY := 0, maxX := 2, maxY := 2 }, colorModel := cm,
    isPaletted := false, stream := exStream }

/-- A valid two-frame input (uniform color model). -/
def exA : APNGData :=
  { images := [exImg 0, exImg 0], delays := [10, 10], disposals := none, loopCount := 0 }

/-- The parse results of `exA`'s two frame streams. -/
def exPcs : List PngChunk :=
  [{ ihdr := some (List.replicate 13 0), idats := [[1, 2, 3]] },
   { ihdr := some (List.replicate 13 0), idats := [[1, 2, 3]] }]

/-- A two-frame input mixing two different color models, otherwise valid. -/
def exMixed : APNGData :=
  { images := [exImg 0, exImg 1], delays := [10, 10], disposals := none, loopCount := 0 }

/-! ## The claims -/

/-- C3: for every chunk emitted by `writeChunk` on a healthy encoder (any
4-byte tag, any payload fitting the 32-bit length field), the emitted bytes
are big-endian payload length ‖ tag ‖ payload ‖ big-endian CRC-32 (IEEE)
computed over tag ‖ payload; in particular the leading 4 emitted bytes are
the big-endian payload length and the trailing 4 bytes (those after the
8-byte header and the payload) are the big-endian CRC-32. -/
theorem c3_writeChunk_layout (out : List Nat) (s : Nat) (b name : List Nat)
    (hb : b.length < 4294967296) (hn : name.length = 4) :
    (writeChunk ⟨out, [], none, s⟩ b name).out.drop out.length =
        u32be b.length ++ name ++ b ++ u32be (crc32 (name ++ b)) ∧
      ((writeChunk ⟨out, [], none, s⟩ b name).out.drop out.length).take 4 = u32be b.length ∧
      ((writeChunk ⟨out, [], none, s⟩ b name).out.drop out.length).drop (8 + b.length) =
        u32be (crc32 (name ++ b)) := by
  rw [writeChunk_clean out s b name hb hn]
  have hdrop : (out ++ serializeChunk ⟨name, b⟩).drop out.length = serializeChunk ⟨name, b⟩ :=
    drop_append_left _ _ _ rfl
  refine ⟨by rw [hdrop]; rfl, ?_, ?_⟩
  · rw [hdrop, show serializeChunk ⟨name, b⟩ =
      u32be b.length ++ (name ++ (b ++ u32be (crc32 (name ++ b)))) from by
        simp [serializeChunk, List.append_assoc]]
    exact take_append_left _ _ 4 (u32be_length _)
  · rw [hdrop, show serializeChunk ⟨name, b⟩ =
      (u32be b.length ++ name ++ b) ++ u32be (crc32 (name ++ b)) from by
        simp [serializeChunk, List.append_assoc]]
    exact drop_append_left _ _ _ (by simp [List.length_append, u32be_length, hn]; omega)

/-- C3 witness at a concrete chunk. -/
theorem c3_witness :
    (writeChunk ⟨[], [], none, 0⟩ [5, 6] tagIDAT).out.drop ([] : List Nat).length =
      u32be ([5, 6] : List Nat).length ++ tagIDAT ++ [5, 6] ++
        u32be (crc32 (tagIDAT ++ [5, 6])) :=
  (c3_writeChunk_layout [] 0 [5, 6] tagIDAT (by norm_num) rfl).1

/-- C7: once the encoder's error field is set, every subsequent
`writeChunk` call — any sequence of payload/tag pairs — is a no-op: the
state (output bytes, pending writer schedule, stored first error, sequence
counter) is unchanged, so the first error is what the caller gets. -/
theorem c7_sticky_error (e : Enc) (er : GoErr) (h : e.err = some er)
    (ops : List (List Nat × List Nat)) :
    ops.foldl (fun s p => writeChunk s p.1 p.2) e = e := by
  induction ops with
  | nil => rfl
  | cons op rest ih =>
    rw [List.foldl_cons, writeChunk_err _ _ _ er h]
    exact ih

/-- C7 witness: a failed encoder ignores a further chunk write. -/
theorem c7_witness :
    [([1, 2, 3], tagIDAT)].foldl (fun s p => writeChunk s p.1 p.2)
        (⟨[9], [], some .chunkTooLarge, 5⟩ : Enc) =
      (⟨[9], [], some .chunkTooLarge, 5⟩ : Enc) :=
  c7_sticky_error _ .chunkTooLarge rfl _

/-- C4: whenever the count invariants are violated (no frames, delay count
mismatch, or disposals provided with a count mismatch), `EncodeAll` returns
one of the count-validation errors and writes nothing — for any writer
schedule, showing the checks precede the signature write and all
per-frame work. -/
theorem c4_count_validation (sched : List (Option Nat)) (a : APNGData)
    (h : a.images.length = 0 ∨ a.images.length ≠ a.delays.length ∨
      (∃ d, a.disposals = some d ∧ a.images.length ≠ d.length)) :
    (encodeAll sched a).1 = [] ∧
      ∃ er, (encodeAll sched a).2 = some er ∧ er.isCountValidation = true := by
  by_cases h0 : a.images.length = 0
  · rw [show encodeAll sched a = ([], some .needOneImage) from by
      rw [encodeAll, if_pos h0]]
    exact ⟨rfl, ⟨.needOneImage, rfl, rfl⟩⟩
  by_cases h1 : a.images.length ≠ a.delays.length
  · rw [show encodeAll sched a = ([], some .mismatchedDelays) from by
      rw [encodeAll, if_neg h0, if_pos h1]]
    exact ⟨rfl, ⟨.mismatchedDelays, rfl, rfl⟩⟩
  by_cases h2 : disposalsMismatch a = true
  · rw [show encodeAll sched a = ([], some .mismatchedDisposals) from by
      rw [encodeAll, if_neg h0, if_neg h1, if_pos h2]]
    exact ⟨rfl, ⟨.mismatchedDisposals, rfl, rfl⟩⟩
  · exfalso
    rcases h with h | h | ⟨d, hd, hlen⟩
    · exact h0 h
    · exact h1 h
    · exact h2 (by simp [disposalsMismatch, hd, hlen])

/-- C4 witness: the empty input is rejected with no bytes written. -/
theorem c4_witness :
    (encodeAll [] { images := [], delays := [], disposals := none, loopCount := 0 }).1 = [] ∧
      ∃ er, (encodeAll []
          { images := [], delays := [], disposals := none, loopCount := 0 }).2 = some er ∧
        er.isCountValidation = true :=
  c4_count_validation [] _ (Or.inl rfl)

/-- C5 (code evidence): the current `EncodeAll` performs no color-model
validation.  `exMixed` mixes two color models across its non-paletted
frames, `isSameColorModel` rejects it, yet `EncodeAll` succeeds and
produces a full container. -/
theorem c5_mixed_color_models_accepted :
    isSameColorModel exMixed.images = false ∧
      (encodeAll [] exMixed).2 = none ∧ (encodeAll [] exMixed).1 ≠ [] := by
  refine ⟨by decide, by decide, by decide⟩

/-- C6: with the count checks passing, `EncodeAll` returns the
region-constraint validation error precisely when some frame's bounds lie
outside the canvas defined by frame 0 (frame 0's origin non-negative, every
later frame with non-negative origin and maximum extents bounded by frame
0's), for any writer; and for accepted inputs each frame-control payload
carries width `Max.X - Min.X`, height `Max.Y - Min.Y` and offsets
`Min.X`, `Min.Y` verbatim (as Go `uint32` conversions) from that frame's
bounds. -/
theorem c6_region_check (sched : List (Option Nat)) (a : APNGData)
    (pcs : List PngChunk) (palOpt : Option PaletteAcc)
    (h0 : a.images.length ≠ 0)
    (h1 : a.images.length = a.delays.length)
    (h2 : disposalsMismatch a = false)
    (hpal : (if (a.images.getD 0 default).isPaletted = true
        then (fetchPaletteChunk (a.images.getD 0 default).stream).map some
        else Except.ok none) = Except.ok palOpt)
    (hpcs : parseFrames a.images = Except.ok pcs)
    (hihdr : ((pcs.getD 0 default).ihdr.getD []).length < 4294967296)
    (hid : ∀ pc ∈ pcs, ∀ id ∈ pc.idats, 4 + id.length < 4294967296) :
    ((encodeAll sched a).2 = some .regionConstraints ↔ ¬ regionWithin a.images) ∧
    (regionWithin a.images →
      ∃ cs, parseContainer (encodeAll [] a).1 = some cs ∧
        ∀ i < a.images.length, ∃ s ds,
          ((cs.filter (tagIs tagfcTL)).getD i default).payload =
            u32be s ++
            u32be (goUint32 ((a.images.getD i default).bounds.maxX -
              (a.images.getD i default).bounds.minX)) ++
            u32be (goUint32 ((a.images.getD i default).bounds.maxY -
              (a.images.getD i default).bounds.minY)) ++
            u32be (goUint32 (a.images.getD i default).bounds.minX) ++
            u32be (goUint32 (a.images.getD i default).bounds.minY) ++ ds) := by
  constructor
  · constructor
    · intro hres
      intro hreg
      have hreg' : fullfillFrameRegionConstraints a.images = true :=
        (fullfill_iff_regionWithin _).mpr hreg
      have hpost := encodeAll_post sched a h0 h1 h2 hreg' _ hres
      rcases hpost with h | h | h | ⟨n, h⟩ <;> simp at h
    · intro hneg
      have hreg' : ¬ fullfillFrameRegionConstraints a.images = true := by
        rw [fullfill_iff_regionWithin]
        exact hneg
      rw [show encodeAll sched a = ([], some .regionConstraints) from by
        rw [encodeAll, if_neg h0, if_neg (by simp [h1]), if_neg (by simp [h2]),
          if_pos hreg']]
  · intro hreg
    have hreg' : fullfillFrameRegionConstraints a.images = true :=
      (fullfill_iff_regionWithin _).mpr hreg
    have hparse := encodeAll_parse a pcs palOpt h0 h1 h2 hreg' hpal hpcs hihdr hid
    refine ⟨fullChunkList a pcs palOpt, hparse.1, ?_⟩
    intro i hi
    refine ⟨fcSeq pcs i % 4294967296,
      u16be (a.delays.getD i 0) ++ (u16be 100 ++
        [(match a.disposals with
          | some d => d.getD i 0 % 256
          | none => 0), 0]), ?_⟩
    rw [full_filter_fcTL, fcTL_list_getD a pcs i hi]
    simp [fcPayload, List.append_assoc]

/-- C6 witness: a concrete in-canvas input is not rejected with the region
error, and its frame-control geometry fields are encoded verbatim. -/
theorem c6_witness : ¬ ((encodeAll [] exA).2 = some GoErr.regionConstraints) := by
  have h := c6_region_check [] exA exPcs none (by decide) (by decide) (by decide)
    (by rfl) (by rfl) (by decide) (by decide)
  exact fun hc => absurd (by decide : regionWithin exA.images) (h.1.mp hc)

/-- The single `IHDR` chunk of the output. -/
theorem full_filter_IHDR (a : APNGData) (pcs : List PngChunk) (palOpt : Option PaletteAcc) :
    (fullChunkList a pcs palOpt).filter (tagIs tagIHDR) =
      [⟨tagIHDR, (pcs.getD 0 default).ihdr.getD []⟩] := by
  rw [fullChunkList]
  simp only [List.filter_append]
  rw [List.filter_cons, if_pos (by simp [tagIs]),
    palChunks_filter_ne palOpt _ (by simp [tagIHDR, tagPLTE]) (by simp [tagIHDR, tagTRNS]),
    later_filter_ne a pcs _ (by simp [tagIHDR, tagfcTL]) (by simp [tagIHDR, tagfdAT]),
    filter_map_const_false _ _ _ (fun id => by simp [tagIs, tagIDAT, tagIHDR])]
  simp [tagIs, List.filter_cons, tagacTL, tagfcTL, tagIHDR, tagIEND]

/-- C2: on a valid input whose frame streams parse and whose payloads fit
the length field, `EncodeAll` succeeds, and re-parsing the produced bytes
yields exactly: one IHDR first after the signature, at most one PLTE and at
most one tRNS, one acTL whose frame-count field equals the number of
frames, one fcTL per frame, frame 0's data group as IDAT chunks and each
later frame's group as fdAT chunks (the explicit chunk-sequence equality),
and one IEND last. -/
theorem c2_roundtrip (a : APNGData) (pcs : List PngChunk) (palOpt : Option PaletteAcc)
    (himg : a.images.length ≠ 0)
    (hdel : a.images.length = a.delays.length)
    (hdisp : disposalsMismatch a = false)
    (hreg : fullfillFrameRegionConstraints a.images = true)
    (hpal : (if (a.images.getD 0 default).isPaletted = true
        then (fetchPaletteChunk (a.images.getD 0 default).stream).map some
        else Except.ok none) = Except.ok palOpt)
    (hpcs : parseFrames a.images = Except.ok pcs)
    (hihdr : ((pcs.getD 0 default).ihdr.getD []).length < 4294967296)
    (hid : ∀ pc ∈ pcs, ∀ id ∈ pc.idats, 4 + id.length < 4294967296)
    (hN : a.images.length < 4294967296) :
    (encodeAll [] a).2 = none ∧
    ∃ cs, parseContainer (encodeAll [] a).1 = some cs ∧
      cs = (⟨tagIHDR, (pcs.getD 0 default).ihdr.getD []⟩ :: palChunks palOpt) ++
        [⟨tagacTL, u32be (a.images.length % 4294967296) ++ u32be (a.loopCount % 4294967296)⟩,
         ⟨tagfcTL, fcPayload a 0 0⟩] ++
        (pcs.getD 0 default).idats.map (fun id => ⟨tagIDAT, id⟩) ++
        laterFrameChunks a pcs ++ [⟨tagIEND, []⟩] ∧
      cs.head?.map Chunk.tag = some tagIHDR ∧
      cs.getLast?.map Chunk.tag = some tagIEND ∧
      (cs.filter (tagIs tagIHDR)).length = 1 ∧
      (cs.filter (tagIs tagPLTE)).length ≤ 1 ∧
      (cs.filter (tagIs tagTRNS)).length ≤ 1 ∧
      (∃ p, cs.filter (tagIs tagacTL) = [⟨tagacTL, p⟩] ∧
        parseU32 (p.take 4) = a.images.length) ∧
      (cs.filter (tagIs tagfcTL)).length = a.images.length ∧
      (cs.filter (tagIs tagIDAT)).length = idatCnt pcs 0 ∧
      (cs.filter (tagIs tagfdAT)).length =
        ((List.range (a.images.length - 1)).map fun k => idatCnt pcs (k + 1)).sum := by
  have hparse := encodeAll_parse a pcs palOpt himg hdel hdisp hreg hpal hpcs hihdr hid
  refine ⟨hparse.2, fullChunkList a pcs palOpt, hparse.1, ?_, ?_, ?_, ?_, ?_, ?_, ?_, ?_, ?_, ?_⟩
  · rw [fullChunkList]
  · rw [fullChunkList]
    simp [List.cons_append]
  · rw [fullChunkList]
    have : (⟨tagIHDR, (pcs.getD 0 default).ihdr.getD []⟩ :: palChunks palOpt) ++
        [⟨tagacTL, u32be (a.images.length % 4294967296) ++ u32be (a.loopCount % 4294967296)⟩,
         ⟨tagfcTL, fcPayload a 0 0⟩] ++
        (pcs.getD 0 default).idats.map (fun id => (⟨tagIDAT, id⟩ : Chunk)) ++
        laterFrameChunks a pcs ++ [⟨tagIEND, []⟩] =
        ((⟨tagIHDR, (pcs.getD 0 default).ihdr.getD []⟩ :: palChunks palOpt) ++
        [⟨tagacTL, u32be (a.images.length % 4294967296) ++ u32be (a.loopCount % 4294967296)⟩,
         ⟨tagfcTL, fcPayload a 0 0⟩] ++
        (pcs.getD 0 default).idats.map (fun id => (⟨tagIDAT, id⟩ : Chunk)) ++
        laterFrameChunks a pcs) ++ [⟨tagIEND, []⟩] := by
      simp [List.append_assoc]
    rw [this, List.getLast?_concat]
    rfl
  · rw [full_filter_IHDR]
    rfl
  · rw [full_filter_pal_only a pcs palOpt tagPLTE (by simp [tagIHDR, tagPLTE])
      (by simp [tagacTL, tagPLTE]) (by simp [tagfcTL, tagPLTE]) (by simp [tagIDAT, tagPLTE])
      (by simp [tagfdAT, tagPLTE]) (by simp [tagIEND, tagPLTE])]
    rcases palChunks_cases palOpt with h | ⟨p, h⟩ | ⟨p, t, h⟩ <;> rw [h] <;>
      simp [tagIs, List.filter_cons, tagPLTE, tagTRNS]
  · rw [full_filter_pal_only a pcs palOpt tagTRNS (by simp [tagIHDR, tagTRNS])
      (by simp [tagacTL, tagTRNS]) (by simp [tagfcTL, tagTRNS]) (by simp [tagIDAT, tagTRNS])
      (by simp [tagfdAT, tagTRNS]) (by simp [tagIEND, tagTRNS])]
    rcases palChunks_cases palOpt with h | ⟨p, h⟩ | ⟨p, t, h⟩ <;> rw [h] <;>
      simp [tagIs, List.filter_cons, tagPLTE, tagTRNS]
  · refine ⟨u32be (a.images.length % 4294967296) ++ u32be (a.loopCount % 4294967296),
      full_filter_acTL a pcs palOpt, ?_⟩
    rw [take_append_left _ _ 4 (u32be_length _),
      parseU32_u32be _ (Nat.mod_lt _ (by norm_num)), Nat.mod_eq_of_lt hN]
  · rw [full_filter_fcTL]
    simp only [List.length_cons, List.length_map, List.length_range]
    omega
  · rw [full_filter_IDAT]
    simp [idatCnt]
  · rw [full_filter_fdAT, length_flatMap]
    congr 1
    apply List.map_congr_left
    intro k hk
    simp [idatCnt]

/-- C2 witness: on the concrete two-frame input, `EncodeAll` succeeds. -/
theorem c2_witness : (encodeAll [] exA).2 = none :=
  (c2_roundtrip exA exPcs none (by decide) (by decide) (by decide) (by decide)
    (by rfl) (by rfl) (by decide) (by decide) (by decide)).1

/-- C1: on a valid input (streams parse, payloads fit, and the total number
of sequenced chunks fits the 32-bit counter), the sequence numbers carried
by the fcTL and fdAT chunks of the re-parsed output, in emission order, are
exactly `0, 1, 2, …` with no gaps: frame 0's control chunk carries 0, each
later frame's control chunk takes the next value, and each of its data
chunks consumes one subsequent value, regardless of how many data chunks
each frame has (frame 0's IDAT chunks consume none). -/
theorem c1_sequence_numbers (a : APNGData) (pcs : List PngChunk) (palOpt : Option PaletteAcc)
    (himg : a.images.length ≠ 0)
    (hdel : a.images.length = a.delays.length)
    (hdisp : disposalsMismatch a = false)
    (hreg : fullfillFrameRegionConstraints a.images = true)
    (hpal : (if (a.images.getD 0 default).isPaletted = true
        then (fetchPaletteChunk (a.images.getD 0 default).stream).map some
        else Except.ok none) = Except.ok palOpt)
    (hpcs : parseFrames a.images = Except.ok pcs)
    (hihdr : ((pcs.getD 0 default).ihdr.getD []).length < 4294967296)
    (hid : ∀ pc ∈ pcs, ∀ id ∈ pc.idats, 4 + id.length < 4294967296)
    (htot : seqTotal pcs a.images.length ≤ 4294967296) :
    ∃ cs, parseContainer (encodeAll [] a).1 = some cs ∧
      cs.filterMap seqOf = List.range (seqTotal pcs a.images.length) :=
  ⟨fullChunkList a pcs palOpt,
    (encodeAll_parse a pcs palOpt himg hdel hdisp hreg hpal hpcs hihdr hid).1,
    full_seqs a pcs palOpt himg htot⟩

/-- C1 witness at the concrete two-frame input. -/
theorem c1_witness :
    ∃ cs, parseContainer (encodeAll [] exA).1 = some cs ∧
      cs.filterMap seqOf = List.range (seqTotal exPcs exA.images.length) :=
  c1_sequence_numbers exA exPcs none (by decide) (by decide) (by decide) (by decide)
    (by rfl) (by rfl) (by decide) (by decide) (by decide)

/-- C8: every frame-control chunk of the re-parsed output has exactly a
26-byte payload laid out as sequence number ‖ width ‖ height ‖ x-offset ‖
y-offset (u32 each) ‖ delay numerator `Delays[i]` (u16) ‖ delay denominator
100 (u16) ‖ dispose byte (`Disposals[i]` when provided, else 0) ‖ blend
byte 0. -/
theorem c8_fcTL_layout (a : APNGData) (pcs : List PngChunk) (palOpt : Option PaletteAcc)
    (himg : a.images.length ≠ 0)
    (hdel : a.images.length = a.delays.length)
    (hdisp : disposalsMismatch a = false)
    (hreg : fullfillFrameRegionConstraints a.images = true)
    (hpal : (if (a.images.getD 0 default).isPaletted = true
        then (fetchPaletteChunk (a.images.getD 0 default).stream).map some
        else Except.ok none) = Except.ok palOpt)
    (hpcs : parseFrames a.images = Except.ok pcs)
    (hihdr : ((pcs.getD 0 default).ihdr.getD []).length < 4294967296)
    (hid : ∀ pc ∈ pcs, ∀ id ∈ pc.idats, 4 + id.length < 4294967296)
    (htot : seqTotal pcs a.images.length ≤ 4294967296)
    (hd : ∀ d, a.disposals = some d → ∀ x ∈ d, x < 256) :
    ∃ cs, parseContainer (encodeAll [] a).1 = some cs ∧
      (cs.filter (tagIs tagfcTL)).length = a.images.length ∧
      ∀ i < a.images.length,
        ((cs.filter (tagIs tagfcTL)).getD i default).payload.length = 26 ∧
        ((cs.filter (tagIs tagfcTL)).getD i default).payload =
          u32be (fcSeq pcs i) ++
          u32be (goUint32 ((a.images.getD i default).bounds.maxX -
            (a.images.getD i default).bounds.minX)) ++
          u32be (goUint32 ((a.images.getD i default).bounds.maxY -
            (a.images.getD i default).bounds.minY)) ++
          u32be (goUint32 (a.images.getD i default).bounds.minX) ++
          u32be (goUint32 (a.images.getD i default).bounds.minY) ++
          u16be (a.delays.getD i 0) ++ u16be 100 ++
          [(match a.disposals with
            | some d => d.getD i 0
            | none => 0), 0] := by
  refine ⟨fullChunkList a pcs palOpt,
    (encodeAll_parse a pcs palOpt himg hdel hdisp hreg hpal hpcs hihdr hid).1, ?_, ?_⟩
  · rw [full_filter_fcTL]
    simp only [List.length_cons, List.length_map, List.length_range]
    omega
  · intro i hi
    have hlt : fcSeq pcs i < 4294967296 := by
      have h1 : fcSeq pcs i + 1 ≤ fcSeq pcs (i + 1) := by
        rw [fcSeq_succ]
        omega
      have h2 : fcSeq pcs (i + 1) ≤ fcSeq pcs a.images.length := fcSeq_mono pcs (by omega)
      have h3 := htot
      rw [seqTotal] at h3
      omega
    have hdb : (match a.disposals with
        | some d => d.getD i 0 % 256
        | none => 0) = (match a.disposals with
        | some d => d.getD i 0
        | none => (0 : Nat)) := by
      rcases hds : a.disposals with _ | d
      · rfl
      · dsimp only
        rcases getD_mem_or d i 0 with hm | hm
        · exact Nat.mod_eq_of_lt (hd d hds _ hm)
        · rw [hm]
    constructor
    · rw [full_filter_fcTL, fcTL_list_getD a pcs i hi]
      exact fcPayload_length a i _
    · rw [full_filter_fcTL, fcTL_list_getD a pcs i hi]
      rw [show (⟨tagfcTL, fcPayload a i (fcSeq pcs i % 4294967296)⟩ : Chunk).payload =
        fcPayload a i (fcSeq pcs i % 4294967296) from rfl]
      rw [fcPayload, Nat.mod_eq_of_lt hlt, hdb]

/-- C8 witness at the concrete two-frame input. -/
theorem c8_witness :
    ∃ cs, parseContainer (encodeAll [] exA).1 = some cs ∧
      (cs.filter (tagIs tagfcTL)).length = exA.images.length ∧
      ∀ i < exA.images.length,
        ((cs.filter (tagIs tagfcTL)).getD i default).payload.length = 26 ∧
        ((cs.filter (tagIs tagfcTL)).getD i default).payload =
          u32be (fcSeq exPcs i) ++
          u32be (goUint32 ((exA.images.getD i default).bounds.maxX -
            (exA.images.getD i default).bounds.minX)) ++
          u32be (goUint32 ((exA.images.getD i default).bounds.maxY -
            (exA.images.getD i default).bounds.minY)) ++
          u32be (goUint32 (exA.images.getD i default).bounds.minX) ++
          u32be (goUint32 (exA.images.getD i default).bounds.minY) ++
          u16be (exA.delays.getD i 0) ++ u16be 100 ++
          [(match exA.disposals with
            | some d => d.getD i 0
            | none => 0), 0] :=
  c8_fcTL_layout exA exPcs none (by decide) (by decide) (by decide) (by decide)
    (by rfl) (by rfl) (by decide) (by decide) (by decide)
    (by intro d hds; cases hds)

/-- C9: in the re-parsed output, frame 0's data payloads appear as plain
IDAT chunks with payloads byte-for-byte unchanged, and each data payload of
every later frame appears as an fdAT chunk whose payload is the 4-byte
big-endian sequence number followed by that payload unchanged. -/
theorem c9_data_chunks (a : APNGData) (pcs : List PngChunk) (palOpt : Option PaletteAcc)
    (himg : a.images.length ≠ 0)
    (hdel : a.images.length = a.delays.length)
    (hdisp : disposalsMismatch a = false)
    (hreg : fullfillFrameRegionConstraints a.images = true)
    (hpal : (if (a.images.getD 0 default).isPaletted = true
        then (fetchPaletteChunk (a.images.getD 0 default).stream).map some
        else Except.ok none) = Except.ok palOpt)
    (hpcs : parseFrames a.images = Except.ok pcs)
    (hihdr : ((pcs.getD 0 default).ihdr.getD []).length < 4294967296)
    (hid : ∀ pc ∈ pcs, ∀ id ∈ pc.idats, 4 + id.length < 4294967296)
    (htot : seqTotal pcs a.images.length ≤ 4294967296) :
    ∃ cs, parseContainer (encodeAll [] a).1 = some cs ∧
      cs.filter (tagIs tagIDAT) =
        (pcs.getD 0 default).idats.map (fun id => ⟨tagIDAT, id⟩) ∧
      cs.filter (tagIs tagfdAT) =
        (List.range (a.images.length - 1)).flatMap
          (fun k => (List.range (idatCnt pcs (k + 1))).map
            (fun j => ⟨tagfdAT, u32be (fcSeq pcs (k + 1) + 1 + j) ++
              (pcs.getD (k + 1) default).idats.getD j []⟩)) := by
  refine ⟨fullChunkList a pcs palOpt,
    (encodeAll_parse a pcs palOpt himg hdel hdisp hreg hpal hpcs hihdr hid).1,
    full_filter_IDAT a pcs palOpt, ?_⟩
  rw [full_filter_fdAT]
  apply flatMap_congr
  intro k hk
  apply List.map_congr_left
  intro j hj
  have hjlt : j < idatCnt pcs (k + 1) := List.mem_range.mp hj
  have hklt : k < a.images.length - 1 := List.mem_range.mp hk
  have hstep : fcSeq pcs (k + 1 + 1) = fcSeq pcs (k + 1) + 1 + idatCnt pcs (k + 1) := by
    rw [fcSeq_succ]
    simp
  have hmono : fcSeq pcs (k + 1 + 1) ≤ fcSeq pcs a.images.length := fcSeq_mono pcs (by omega)
  have h3 := htot
  rw [seqTotal] at h3
  have hv : fcSeq pcs (k + 1) + 1 + j < 4294967296 := by omega
  rw [Nat.mod_eq_of_lt hv]

/-- C9 witness at the concrete two-frame input. -/
theorem c9_witness :
    ∃ cs, parseContainer (encodeAll [] exA).1 = some cs ∧
      cs.filter (tagIs tagIDAT) =
        (exPcs.getD 0 default).idats.map (fun id => ⟨tagIDAT, id⟩) ∧
      cs.filter (tagIs tagfdAT) =
        (List.range (exA.images.length - 1)).flatMap
          (fun k => (List.range (idatCnt exPcs (k + 1))).map
            (fun j => ⟨tagfdAT, u32be (fcSeq exPcs (k + 1) + 1 + j) ++
              (exPcs.getD (k + 1) default).idats.getD j []⟩)) :=
  c9_data_chunks exA exPcs none (by decide) (by decide) (by decide) (by decide)
    (by rfl) (by rfl) (by decide) (by decide) (by decide)

/-- C10: in any successful output, a global tRNS chunk appears only
immediately after a global PLTE chunk; a PLTE chunk appears only when frame
0 is paletted and its encoded stream yielded a PLTE chunk to the palette
pre-pass; and when frame 0 is not paletted the output contains no PLTE and
no tRNS chunk at all. -/
theorem c10_palette_invariants (a : APNGData) (pcs : List PngChunk)
    (palOpt : Option PaletteAcc)
    (himg : a.images.length ≠ 0)
    (hdel : a.images.length = a.delays.length)
    (hdisp : disposalsMismatch a = false)
    (hreg : fullfillFrameRegionConstraints a.images = true)
    (hpal : (if (a.images.getD 0 default).isPaletted = true
        then (fetchPaletteChunk (a.images.getD 0 default).stream).map some
        else Except.ok none) = Except.ok palOpt)
    (hpcs : parseFrames a.images = Except.ok pcs)
    (hihdr : ((pcs.getD 0 default).ihdr.getD []).length < 4294967296)
    (hid : ∀ pc ∈ pcs, ∀ id ∈ pc.idats, 4 + id.length < 4294967296) :
    ∃ cs, parseContainer (encodeAll [] a).1 = some cs ∧
      ((∃ c ∈ cs, c.tag = tagTRNS) →
        ∃ pre p t suf, cs = pre ++ p :: t :: suf ∧ p.tag = tagPLTE ∧ t.tag = tagTRNS) ∧
      ((∃ c ∈ cs, c.tag = tagPLTE) →
        (a.images.getD 0 default).isPaletted = true ∧
        ∃ pal, fetchPaletteChunk (a.images.getD 0 default).stream = Except.ok pal ∧
          pal.plte.isSome = true) ∧
      ((a.images.getD 0 default).isPaletted = false →
        ∀ c ∈ cs, c.tag ≠ tagPLTE ∧ c.tag ≠ tagTRNS) := by
  refine ⟨fullChunkList a pcs palOpt,
    (encodeAll_parse a pcs palOpt himg hdel hdisp hreg hpal hpcs hihdr hid).1, ?_, ?_, ?_⟩
  · rintro ⟨c, hc, htag⟩
    have hcf : c ∈ (fullChunkList a pcs palOpt).filter (tagIs tagTRNS) :=
      List.mem_filter.mpr ⟨hc, by simp [tagIs, htag]⟩
    rw [full_filter_pal_only a pcs palOpt tagTRNS (by simp [tagIHDR, tagTRNS])
      (by simp [tagacTL, tagTRNS]) (by simp [tagfcTL, tagTRNS]) (by simp [tagIDAT, tagTRNS])
      (by simp [tagfdAT, tagTRNS]) (by simp [tagIEND, tagTRNS])] at hcf
    rcases palChunks_cases palOpt with h | ⟨p, h⟩ | ⟨p, t, h⟩
    · rw [h] at hcf
      simp at hcf
    · rw [h] at hcf
      simp [tagIs, tagPLTE, tagTRNS, List.filter_cons] at hcf
    · refine ⟨[⟨tagIHDR, (pcs.getD 0 default).ihdr.getD []⟩], ⟨tagPLTE, p⟩, ⟨tagTRNS, t⟩,
        [⟨tagacTL, u32be (a.images.length % 4294967296) ++ u32be (a.loopCount % 4294967296)⟩,
         ⟨tagfcTL, fcPayload a 0 0⟩] ++
        (pcs.getD 0 default).idats.map (fun id => ⟨tagIDAT, id⟩) ++
        laterFrameChunks a pcs ++ [⟨tagIEND, []⟩], ?_, rfl, rfl⟩
      rw [fullChunkList, h]
      simp [List.append_assoc]
  · rintro ⟨c, hc, htag⟩
    have hcf : c ∈ (fullChunkList a pcs palOpt).filter (tagIs tagPLTE) :=
      List.mem_filter.mpr ⟨hc, by simp [tagIs, htag]⟩
    rw [full_filter_pal_only a pcs palOpt tagPLTE (by simp [tagIHDR, tagPLTE])
      (by simp [tagacTL, tagPLTE]) (by simp [tagfcTL, tagPLTE]) (by simp [tagIDAT, tagPLTE])
      (by simp [tagfdAT, tagPLTE]) (by simp [tagIEND, tagPLTE])] at hcf
    have hnonempty : palChunks palOpt ≠ [] := by
      intro hnil
      rw [hnil] at hcf
      simp at hcf
    rcases hp : (a.images.getD 0 default).isPaletted with _ | _
    · rw [if_neg (by rw [hp]; simp)] at hpal
      cases hpal
      exact absurd rfl hnonempty
    · refine ⟨rfl, ?_⟩
      rw [if_pos hp] at hpal
      rcases hq : fetchPaletteChunk (a.images.getD 0 default).stream with er | pal
      · rw [hq] at hpal
        cases hpal
      · rw [hq] at hpal
        rcases pal with ⟨plteO, trnsO⟩
        cases hpal
        refine ⟨⟨plteO, trnsO⟩, rfl, ?_⟩
        rcases plteO with _ | plteRaw
        · exact absurd rfl hnonempty
        · rfl
  · intro hp c hc
    rw [if_neg (by rw [hp]; simp)] at hpal
    cases hpal
    constructor
    · intro htag
      have hcf : c ∈ (fullChunkList a pcs none).filter (tagIs tagPLTE) :=
        List.mem_filter.mpr ⟨hc, by simp [tagIs, htag]⟩
      rw [full_filter_pal_only a pcs none tagPLTE (by simp [tagIHDR, tagPLTE])
        (by simp [tagacTL, tagPLTE]) (by simp [tagfcTL, tagPLTE]) (by simp [tagIDAT, tagPLTE])
        (by simp [tagfdAT, tagPLTE]) (by simp [tagIEND, tagPLTE])] at hcf
      simp [palChunks] at hcf
    · intro htag
      have hcf : c ∈ (fullChunkList a pcs none).filter (tagIs tagTRNS) :=
        List.mem_filter.mpr ⟨hc, by simp [tagIs, htag]⟩
      rw [full_filter_pal_only a pcs none tagTRNS (by simp [tagIHDR, tagTRNS])
        (by simp [tagacTL, tagTRNS]) (by simp [tagfcTL, tagTRNS]) (by simp [tagIDAT, tagTRNS])
        (by simp [tagfdAT, tagTRNS]) (by simp [tagIEND, tagTRNS])] at hcf
      simp [palChunks] at hcf

/-- C10 witness at the concrete two-frame (non-paletted) input. -/
theorem c10_witness :
    ∃ cs, parseContainer (encodeAll [] exA).1 = some cs ∧
      ((∃ c ∈ cs, c.tag = tagTRNS) →
        ∃ pre p t suf, cs = pre ++ p :: t :: suf ∧ p.tag = tagPLTE ∧ t.tag = tagTRNS) ∧
      ((∃ c ∈ cs, c.tag = tagPLTE) →
        (exA.images.getD 0 default).isPaletted = true ∧
        ∃ pal, fetchPaletteChunk (exA.images.getD 0 default).stream = Except.ok pal ∧
          pal.plte.isSome = true) ∧
      ((exA.images.getD 0 default).isPaletted = false →
        ∀ c ∈ cs, c.tag ≠ tagPLTE ∧ c.tag ≠ tagTRNS) :=
  c10_palette_invariants exA exPcs none (by decide) (by decide) (by decide) (by decide)
    (by rfl) (by rfl) (by decide) (by decide)

end Apng